import Mathlib

/-!
# Verification of `AnDA_codes/AnDA_analog_forecasting.py`

Shallow embedding of the analog forecasting routine `AnDA_analog_forecasting(x, AF)`
over the reals.  Matrices are total functions `ℕ → ℕ → ℝ` together with explicit
dimension parameters (`N` ensemble members, `n` state variables, `M` catalog rows,
`k` neighbors); indices outside the declared dimensions are junk and are never
relied upon by any theorem.

External collaborators of the routine are modelled as follows.

* `sklearn.neighbors.KDTree`: building the tree and querying it is modelled by
  exact sorting of the catalog rows by Euclidean distance (ties broken by the
  stable catalog index order) and taking the first `k`; the input validation that
  sklearn performs (non-empty data, non-empty feature set, `1 ≤ k ≤` number of
  training points) is modelled by `knnCheck`, which produces the corresponding
  `ValueError` as an `Except.error`.
* `numpy.linalg.svd`: a deterministic oracle `svd` carried in the configuration;
  it receives the exact matrix (with its dimensions) and returns the singular
  values `S` and the row matrix `V` (numpy's `Vh`).  Determinism (equal input
  gives equal output) is all the code relies on.
* `scipy.linalg.inv`: the Mathlib matrix inverse; it raises
  `LinAlgError: singular matrix` exactly on a matrix of determinant zero,
  which is modelled with an `Except.error`.
* randomness (`np.random`): a deterministic tape `tape : ℕ → ℝ` of uniform draws,
  consumed in program order; a multinomial draw consumes one tape value, a
  Gaussian draw consumes one value per target variable and maps them through the
  oracle `gaussMap` (the precise distributional transformation of
  `np.random.multivariate_normal` is irrelevant to every claim).
* the helpers `mk_stochastic` and `sample_discrete` are imported by the source
  from `AnDA_codes.AnDA_stat_functions`, a file of this repository that is not
  part of the given sources; they are modelled from the spec (see their
  doc comments).

The routine itself (`quit()` after an error print) is modelled as an
`Except String` computation: an unrecognized configuration aborts the whole call
with no output.
-/

open Classical

/-- Configuration bundle: the ensemble `x` with its dimensions, the catalog,
the neighborhood matrix, the forecasting parameters (`k`, `regression`,
`sampling`), and the modelled external collaborators (random tape, svd oracle,
Gaussian sampling oracle). -/
structure AFConfig where
  N : ℕ
  n : ℕ
  M : ℕ
  x : ℕ → ℕ → ℝ
  analogs : ℕ → ℕ → ℝ
  successors : ℕ → ℕ → ℝ
  neighborhood : ℕ → ℕ → ℝ
  k : ℕ
  regression : String
  sampling : String
  tape : ℕ → ℝ
  svd : ℕ → ℕ → (ℕ → ℕ → ℝ) → ((ℕ → ℝ) × (ℕ → ℕ → ℝ))
  gaussMap : (ℕ → ℝ) → (ℕ → ℕ → ℝ) → (ℕ → ℝ) → ℕ → ℝ

/-- Mutable state of the routine: the two `N×n` output arrays `xf` and `xf_mean`
(initialized to zeros) and the position in the random tape. -/
structure FState where
  xf : ℕ → ℕ → ℝ
  xf_mean : ℕ → ℕ → ℝ
  pos : ℕ

/-- The all-zero initial state (`xf = np.zeros([N,n])`, `xf_mean = np.zeros([N,n])`). -/
def initState : FState := ⟨fun _ _ => 0, fun _ _ => 0, 0⟩

/-- `np.array_equal(AF.neighborhood, np.ones([n,n]))`: the global-mode test. -/
def allOnes (c : AFConfig) : Prop := ∀ i < c.n, ∀ j < c.n, c.neighborhood i j = 1

/-- `np.where(AF.neighborhood[int(i_var),:]==1)[0]`: context variables of block `j`. -/
noncomputable def ctxVars (c : AFConfig) (j : ℕ) : List ℕ :=
  (List.range c.n).filter (fun v => decide (c.neighborhood j v = 1))

/-- The blocks of the local branch of the while loop: the cursor `i_var` starts
at variable `0` and advances one variable per iteration until `n-1`; each
iteration uses context `ctxVars` and writes the single target variable. -/
noncomputable def localBlocks (c : AFConfig) : List (List ℕ × List ℕ) :=
  (List.range c.n).map (fun j => (ctxVars c j, [j]))

/-- The sequence of `(context, target)` blocks the while loop executes: a single
all-variables pass in global mode, the one-variable cursor otherwise. -/
noncomputable def blocksOf (c : AFConfig) : List (List ℕ × List ℕ) :=
  if allOnes c then [(List.range c.n, List.range c.n)] else localBlocks c

/-- Euclidean distance from ensemble member `i` to catalog row `m` over the
context variables (the KDTree metric). -/
noncomputable def distTo (c : AFConfig) (ctx : List ℕ) (i m : ℕ) : ℝ :=
  Real.sqrt ((ctx.map (fun v => (c.analogs m v - c.x i v) ^ 2)).sum)

/-- Ordering used by the KDTree query result: by distance, ties broken by the
stable catalog index order. -/
noncomputable def nearer (c : AFConfig) (ctx : List ℕ) (i a b : ℕ) : Prop :=
  distTo c ctx i a < distTo c ctx i b ∨
    (distTo c ctx i a = distTo c ctx i b ∧ a < b)

/-- Insertion step of the sort behind the modelled KDTree query. -/
noncomputable def insertNear (c : AFConfig) (ctx : List ℕ) (i a : ℕ) :
    List ℕ → List ℕ
  | [] => [a]
  | b :: l => if nearer c ctx i a b then a :: b :: l else b :: insertNear c ctx i a l

/-- Sorting the catalog rows by distance to member `i` (modelled KDTree query). -/
noncomputable def sortNear (c : AFConfig) (ctx : List ℕ) (i : ℕ) :
    List ℕ → List ℕ
  | [] => []
  | a :: l => insertNear c ctx i a (sortNear c ctx i l)

/-- `index_knn[i,:]` as a list: the `k` nearest catalog rows to member `i`. -/
noncomputable def knnIdx (c : AFConfig) (ctx : List ℕ) (i : ℕ) : List ℕ :=
  (sortNear c ctx i (List.range c.M)).take c.k

/-- `index_knn[i,j]`: the `j`-th nearest catalog row to member `i`. -/
noncomputable def index_knn (c : AFConfig) (ctx : List ℕ) (i j : ℕ) : ℕ :=
  (knnIdx c ctx i).getD j 0

/-- `dist_knn[i,j]`: the distance to the `j`-th nearest catalog row. -/
noncomputable def dist_knn (c : AFConfig) (ctx : List ℕ) (i j : ℕ) : ℝ :=
  distTo c ctx i (index_knn c ctx i j)

/-- Insertion step of the sort behind `np.median`. -/
noncomputable def insertR (a : ℝ) : List ℝ → List ℝ
  | [] => [a]
  | b :: l => if a ≤ b then a :: b :: l else b :: insertR a l

/-- Sorting a list of reals (for `np.median`). -/
noncomputable def sortR : List ℝ → List ℝ
  | [] => []
  | a :: l => insertR a (sortR l)

/-- `np.median` on the flattened array: middle element of the sorted values for
odd length, mean of the two middle elements for even length (junk `0` on the
empty list, which numpy turns into a NaN warning). -/
noncomputable def medianR (l : List ℝ) : ℝ :=
  if l.length = 0 then 0
  else if l.length % 2 = 1 then (sortR l).getD (l.length / 2) 0
  else ((sortR l).getD (l.length / 2 - 1) 0 + (sortR l).getD (l.length / 2) 0) / 2

/-- `lambdaa = np.median(dist_knn)`: the kernel bandwidth of a block, the median
over the whole `N×k` distance array. -/
noncomputable def lambdaa (c : AFConfig) (ctx : List ℕ) : ℝ :=
  medianR (((List.range c.N).map
    (fun i => (List.range c.k).map (fun j => dist_knn c ctx i j))).flatten)

/-- Modelled from the spec: `mk_stochastic`, imported by the source from the
missing `AnDA_codes/AnDA_stat_functions.py`, row-normalizes the kernel matrix so
that each row sums to 1 ("stochastic" weights per member). -/
noncomputable def mk_stochastic (w : ℕ → ℕ → ℝ) (k : ℕ) : ℕ → ℕ → ℝ :=
  fun i j => w i j / ∑ j2 ∈ Finset.range k, w i j2

/-- `np.exp(-np.power(dist_knn,2)/lambdaa)`: the unnormalized kernel weights. -/
noncomputable def kernelW (c : AFConfig) (ctx : List ℕ) (i j : ℕ) : ℝ :=
  Real.exp (-(dist_knn c ctx i j) ^ 2 / lambdaa c ctx)

/-- The weight matrix of a block: `np.ones([N,1])` when `k = 1`, the
row-normalized kernel otherwise. -/
noncomputable def baseWeights (c : AFConfig) (ctx : List ℕ) : ℕ → ℕ → ℝ :=
  if c.k = 1 then (fun _ _ => 1) else mk_stochastic (kernelW c ctx) c.k

/-- The weight row of member `i` as it stands when the sampling step reads it:
the local-linear branch has just overwritten it with the uniform `1/k`
(`weights[i_N,:] = 1.0/len(weights[i_N,:])`), every other branch leaves
`baseWeights` untouched. -/
noncomputable def samplingWeights (c : AFConfig) (ctx : List ℕ) (i j : ℕ) : ℝ :=
  if c.regression = "local_linear" then 1 / (c.k : ℝ) else baseWeights c ctx i j

/-! ## The local-linear branch -/

/-- `X[j,p] = AF.catalog.analogs[index_knn[i,j], ctx[p]]`. -/
noncomputable def XLL (c : AFConfig) (ctx : List ℕ) (i j p : ℕ) : ℝ :=
  c.analogs (index_knn c ctx i j) (ctx.getD p 0)

/-- `Xm`: the weighted mean of the analog context rows. -/
noncomputable def XmLL (c : AFConfig) (ctx : List ℕ) (i p : ℕ) : ℝ :=
  ∑ j ∈ Finset.range c.k, baseWeights c ctx i j * XLL c ctx i j p

/-- `Xc = X - Xm`: the centered analog context rows. -/
noncomputable def XcLL (c : AFConfig) (ctx : List ℕ) (i j p : ℕ) : ℝ :=
  XLL c ctx i j p - XmLL c ctx i p

/-- `Xc` as the zero-extended total function handed to the svd oracle. -/
noncomputable def XcFun (c : AFConfig) (ctx : List ℕ) (i : ℕ) : ℕ → ℕ → ℝ :=
  fun j p => if j < c.k ∧ p < ctx.length then XcLL c ctx i j p else 0

/-- The singular values returned by `np.linalg.svd(Xc, full_matrices=False)`. -/
noncomputable def svdS (c : AFConfig) (ctx : List ℕ) (i : ℕ) : ℕ → ℝ :=
  (c.svd c.k ctx.length (XcFun c ctx i)).1

/-- The `V` (numpy `Vh`) matrix returned by the svd oracle. -/
noncomputable def svdV (c : AFConfig) (ctx : List ℕ) (i : ℕ) : ℕ → ℕ → ℝ :=
  (c.svd c.k ctx.length (XcFun c ctx i)).2

/-- `ind = np.where(S/np.sum(S)>0.01)[0]`: kept principal components. -/
noncomputable def indLL (c : AFConfig) (ctx : List ℕ) (i : ℕ) : List ℕ :=
  (List.range (min c.k ctx.length)).filter
    (fun l => decide (svdS c ctx i l /
      (∑ l2 ∈ Finset.range (min c.k ctx.length), svdS c ctx i l2) > 0.01))

/-- Number of regression columns: the intercept plus the kept components. -/
noncomputable def pLL (c : AFConfig) (ctx : List ℕ) (i : ℕ) : ℕ :=
  (indLL c ctx i).length + 1

/-- `Xr = hstack(ones, Xc @ V.T[:,ind])`: intercept column then projections. -/
noncomputable def XrLL (c : AFConfig) (ctx : List ℕ) (i j q : ℕ) : ℝ :=
  if q = 0 then 1
  else ∑ p ∈ Finset.range ctx.length,
    XcLL c ctx i j p * svdV c ctx i ((indLL c ctx i).getD (q - 1) 0) p

/-- `X0 = x[i, ctx] - Xm`: the centered current context value of member `i`. -/
noncomputable def X0LL (c : AFConfig) (ctx : List ℕ) (i p : ℕ) : ℝ :=
  c.x i (ctx.getD p 0) - XmLL c ctx i p

/-- `X0r = hstack(1, X0 @ V.T[:,ind])`. -/
noncomputable def X0rLL (c : AFConfig) (ctx : List ℕ) (i q : ℕ) : ℝ :=
  if q = 0 then 1
  else ∑ p ∈ Finset.range ctx.length,
    X0LL c ctx i p * svdV c ctx i ((indLL c ctx i).getD (q - 1) 0) p

/-- `Cxx[q,q2] = Σ_j w_j · Xr[j,q] · Xr[j,q2]` (the weighted Gram matrix). -/
noncomputable def CxxLL (c : AFConfig) (ctx : List ℕ) (i q q2 : ℕ) : ℝ :=
  ∑ j ∈ Finset.range c.k, baseWeights c ctx i j * XrLL c ctx i j q * XrLL c ctx i j q2

/-- `Cxx2[q,q2] = Σ_j w_j² · Xr[j,q] · Xr[j,q2]`. -/
noncomputable def Cxx2LL (c : AFConfig) (ctx : List ℕ) (i q q2 : ℕ) : ℝ :=
  ∑ j ∈ Finset.range c.k,
    (baseWeights c ctx i j) ^ 2 * XrLL c ctx i j q * XrLL c ctx i j q2

/-- `Cxy[v,q] = Σ_j w_j · successors[index_knn[i,j], v] · Xr[j,q]` (row of the
weighted cross-moment matrix belonging to target variable `v`). -/
noncomputable def CxyLL (c : AFConfig) (ctx : List ℕ) (i v q : ℕ) : ℝ :=
  ∑ j ∈ Finset.range c.k,
    baseWeights c ctx i j * c.successors (index_knn c ctx i j) v * XrLL c ctx i j q

/-- `Cxx` as a square matrix of its true size, for `scipy.linalg.inv`. -/
noncomputable def CxxMat (c : AFConfig) (ctx : List ℕ) (i : ℕ) :
    Matrix (Fin (pLL c ctx i)) (Fin (pLL c ctx i)) ℝ :=
  Matrix.of fun a b => CxxLL c ctx i a.val b.val

/-- Determinant of `Cxx`: `scipy.linalg.inv` raises exactly when it is zero. -/
noncomputable def detCxx (c : AFConfig) (ctx : List ℕ) (i : ℕ) : ℝ :=
  (CxxMat c ctx i).det

/-- `inv_Cxx`, entrywise (junk `0` outside the matrix dimensions). -/
noncomputable def invCxxE (c : AFConfig) (ctx : List ℕ) (i q q2 : ℕ) : ℝ :=
  if h : q < pLL c ctx i ∧ q2 < pLL c ctx i
  then (CxxMat c ctx i)⁻¹ ⟨q, h.1⟩ ⟨q2, h.2⟩ else 0

/-- `beta = inv_Cxx @ Cxy.T`: column `v` holds the coefficients for target
variable `v`. -/
noncomputable def betaLL (c : AFConfig) (ctx : List ℕ) (i q v : ℕ) : ℝ :=
  ∑ q2 ∈ Finset.range (pLL c ctx i), invCxxE c ctx i q q2 * CxyLL c ctx i v q2

/-- `xf_mean[i, v] = X0r @ beta` for the local-linear branch. -/
noncomputable def meanLL (c : AFConfig) (ctx : List ℕ) (i v : ℕ) : ℝ :=
  ∑ q ∈ Finset.range (pLL c ctx i), X0rLL c ctx i q * betaLL c ctx i q v

/-- `pred = Xr @ beta`: in-sample regression prediction at neighbor `j`. -/
noncomputable def predLL (c : AFConfig) (ctx : List ℕ) (i j v : ℕ) : ℝ :=
  ∑ q ∈ Finset.range (pLL c ctx i), XrLL c ctx i j q * betaLL c ctx i q v

/-- `res = Y - pred`: regression residual of neighbor `j`. -/
noncomputable def resLL (c : AFConfig) (ctx : List ℕ) (i j v : ℕ) : ℝ :=
  c.successors (index_knn c ctx i j) v - predLL c ctx i j v

/-- `np.trace(Cxx2 @ inv_Cxx)`: effective degrees of freedom of the regression. -/
noncomputable def trCxx2Inv (c : AFConfig) (ctx : List ℕ) (i : ℕ) : ℝ :=
  ∑ q ∈ Finset.range (pLL c ctx i), ∑ q2 ∈ Finset.range (pLL c ctx i),
    Cxx2LL c ctx i q q2 * invCxxE c ctx i q2 q

/-- `cov_xfc`: weighted residual covariance, corrected for the degrees of
freedom consumed by the regression. -/
noncomputable def covLLc (c : AFConfig) (ctx : List ℕ) (i v v2 : ℕ) : ℝ :=
  (∑ j ∈ Finset.range c.k, baseWeights c ctx i j * resLL c ctx i j v * resLL c ctx i j v2)
    / (1 - trCxx2Inv c ctx i)

/-- `np.trace(Cxx2 @ inv_Cxx @ X0r.T @ X0r @ inv_Cxx)`: leverage of the new
prediction point. -/
noncomputable def levLL (c : AFConfig) (ctx : List ℕ) (i : ℕ) : ℝ :=
  ∑ q ∈ Finset.range (pLL c ctx i), ∑ a ∈ Finset.range (pLL c ctx i),
    ∑ b ∈ Finset.range (pLL c ctx i), ∑ q2 ∈ Finset.range (pLL c ctx i),
      Cxx2LL c ctx i q q2 * invCxxE c ctx i q2 a * X0rLL c ctx i a *
        X0rLL c ctx i b * invCxxE c ctx i b q

/-- `cov_xf = cov_xfc * (1 + leverage)` for the local-linear branch. -/
noncomputable def covLL (c : AFConfig) (ctx : List ℕ) (i v v2 : ℕ) : ℝ :=
  covLLc c ctx i v v2 * (1 + levLL c ctx i)

/-! ## Per-member forecast, covariance and sampling -/

/-- The forecast contribution of neighbor `j` at variable `v` (the `j`-th row of
`xf_tmp` before the target-column restriction): the successor value in the
locally-constant branch, the member's own value plus the successor-minus-analog
increment in the incremental branch, the regression mean plus the `j`-th
residual in the local-linear branch. -/
noncomputable def fcAt (c : AFConfig) (ctx : List ℕ) (i j v : ℕ) : ℝ :=
  if c.regression = "locally_constant" then c.successors (index_knn c ctx i j) v
  else if c.regression = "increment" then
    c.x i v + c.successors (index_knn c ctx i j) v - c.analogs (index_knn c ctx i j) v
  else meanLL c ctx i v + resLL c ctx i j v

/-- `xf_tmp[j, v]` for the block with target list `tgt`: the matrix is
`np.zeros` initialized, only its target columns are filled. -/
noncomputable def xfTmpAt (c : AFConfig) (ctx tgt : List ℕ) (i j v : ℕ) : ℝ :=
  if v ∈ tgt then fcAt c ctx i j v else 0

/-- `xf_mean[i, v]`: the weighted mean of the neighbor forecasts for the
locally-constant and incremental branches, the regression prediction for the
local-linear branch. -/
noncomputable def meanAt (c : AFConfig) (ctx : List ℕ) (i v : ℕ) : ℝ :=
  if c.regression = "local_linear" then meanLL c ctx i v
  else ∑ j ∈ Finset.range c.k, baseWeights c ctx i j * fcAt c ctx i j v

/-- `1 - np.sum(np.power(weights[i_N,:],2))`: the denominator of the
bias-corrected covariance normalizer of the locally-constant and incremental
branches. -/
noncomputable def covDenom (c : AFConfig) (ctx : List ℕ) (i : ℕ) : ℝ :=
  1 - ∑ j ∈ Finset.range c.k, (baseWeights c ctx i j) ^ 2

/-- `cov_xf` for the locally-constant and incremental branches:
`1/(1-Σw²) · Σ_j w_j (xf_tmp_j - mean)(xf_tmp_j - mean)ᵀ`. -/
noncomputable def covLC (c : AFConfig) (ctx : List ℕ) (i v v2 : ℕ) : ℝ :=
  (covDenom c ctx i)⁻¹ *
    ∑ j ∈ Finset.range c.k, baseWeights c ctx i j *
      (fcAt c ctx i j v - meanAt c ctx i v) * (fcAt c ctx i j v2 - meanAt c ctx i v2)

/-- The transient per-member covariance handed to the Gaussian sampler. -/
noncomputable def covAt (c : AFConfig) (ctx : List ℕ) (i v v2 : ℕ) : ℝ :=
  if c.regression = "local_linear" then covLL c ctx i v v2 else covLC c ctx i v v2

/-- `np.cumsum`-style partial sum of a weight row. -/
noncomputable def cumsum (w : ℕ → ℝ) (j : ℕ) : ℝ := ∑ j2 ∈ Finset.range (j + 1), w j2

/-- Modelled from the spec: `sample_discrete`, imported by the source from the
missing `AnDA_codes/AnDA_stat_functions.py`, draws one neighbor index according
to the weight distribution; modelled as the inverse-CDF draw fed by one uniform
tape value `u` (the first index whose cumulative weight exceeds `u`). -/
noncomputable def sampleDiscrete (w : ℕ → ℝ) (k : ℕ) (u : ℝ) : ℕ :=
  ((List.range k).find? (fun j => decide (u < cumsum w j))).getD (k - 1)

/-- Overwrite row `i` of an `N×n` array at the target columns `tgt` with the
values of `f`; every other entry keeps its previous value. -/
def writeRow (a : ℕ → ℕ → ℝ) (i : ℕ) (tgt : List ℕ) (f : ℕ → ℝ) : ℕ → ℕ → ℝ :=
  fun i2 v => if i2 = i ∧ v ∈ tgt then f v else a i2 v

/-- The sampling step of member `i`: Gaussian sampling draws through the
`gaussMap` oracle from the mean and covariance (consuming one tape value per
target variable), multinomial sampling draws one neighbor index from the
member's current weight row (consuming one tape value) and copies that row of
`xf_tmp`; an unrecognized `AF.sampling` aborts the call. -/
noncomputable def sampleStep (c : AFConfig) (ctx tgt : List ℕ) (i : ℕ) (s : FState) :
    Except String FState :=
  if c.sampling = "gaussian" then
    Except.ok ⟨writeRow s.xf i tgt
        (c.gaussMap (meanAt c ctx i) (covAt c ctx i) (fun t => c.tape (s.pos + t))),
      writeRow s.xf_mean i tgt (meanAt c ctx i),
      s.pos + tgt.length⟩
  else if c.sampling = "multinomial" then
    Except.ok ⟨writeRow s.xf i tgt
        (fun v => xfTmpAt c ctx tgt i
          (sampleDiscrete (samplingWeights c ctx i) c.k (c.tape s.pos)) v),
      writeRow s.xf_mean i tgt (meanAt c ctx i),
      s.pos + 1⟩
  else Except.error "Error: choose AF.sampling between gaussian, multinomial"

/-- One iteration of the `for i_N in range(0,N)` body: dispatch on
`AF.regression` (an unrecognized value aborts the call), in the local-linear
branch `scipy.linalg.inv(Cxx)` raises on a singular matrix, then the sampling
step writes the target columns of row `i` of `xf` and `xf_mean`. -/
noncomputable def memberStep (c : AFConfig) (ctx tgt : List ℕ) (i : ℕ) (s : FState) :
    Except String FState :=
  if c.regression = "locally_constant" then sampleStep c ctx tgt i s
  else if c.regression = "increment" then sampleStep c ctx tgt i s
  else if c.regression = "local_linear" then
    if detCxx c ctx i = 0 then Except.error "LinAlgError: singular matrix"
    else sampleStep c ctx tgt i s
  else Except.error "Error: choose AF.regression between locally_constant, increment, local_linear"

/-- The member loop of one block, in member order. -/
noncomputable def runMembers (c : AFConfig) (ctx tgt : List ℕ) :
    List ℕ → FState → Except String FState
  | [], s => Except.ok s
  | i :: l, s =>
    match memberStep c ctx tgt i s with
    | Except.error e => Except.error e
    | Except.ok s2 => runMembers c ctx tgt l s2

/-- The input validation performed by sklearn's `KDTree` constructor and
`query` before any forecasting work: non-empty training data, at least one
feature, non-empty query set, and `1 ≤ k ≤` number of training points; each
violation raises a `ValueError` to the caller. -/
noncomputable def knnCheck (c : AFConfig) (ctx : List ℕ) : Except String Unit :=
  if c.M = 0 then Except.error "ValueError: found array with 0 samples"
  else if ctx = [] then Except.error "ValueError: found array with 0 features"
  else if c.N = 0 then Except.error "ValueError: found query array with 0 samples"
  else if c.k < 1 then Except.error "ValueError: k must be at least 1"
  else if c.M < c.k then
    Except.error "ValueError: k must be less than or equal to the number of training points"
  else Except.ok ()

/-- One iteration of the while loop: build and query the KDTree (with sklearn's
validation), then run the member loop of the block. -/
noncomputable def blockRun (c : AFConfig) (b : List ℕ × List ℕ) (s : FState) :
    Except String FState :=
  match knnCheck c b.1 with
  | Except.error e => Except.error e
  | Except.ok _ => runMembers c b.1 b.2 (List.range c.N) s

/-- The while loop over the blocks. -/
noncomputable def runBlocks (c : AFConfig) :
    List (List ℕ × List ℕ) → FState → Except String FState
  | [], s => Except.ok s
  | b :: bs, s =>
    match blockRun c b s with
    | Except.error e => Except.error e
    | Except.ok s2 => runBlocks c bs s2

/-- `AnDA_analog_forecasting(x, AF)`: returns the pair `(xf, xf_mean)`, or the
error that aborted the call. -/
noncomputable def AnDA_analog_forecasting (c : AFConfig) :
    Except String ((ℕ → ℕ → ℝ) × (ℕ → ℕ → ℝ)) :=
  (runBlocks c (blocksOf c) initState).map (fun s => (s.xf, s.xf_mean))

/-- The spec's "local mode with a neighborhood in which every variable's context
includes all variables" (spec, testable property on global mode): the same
routine forced through the local branch of the while loop, one variable block at
a time, regardless of the global-mode test.  Used only to compare against the
global single pass (claim C5). -/
noncomputable def forecastLocalForced (c : AFConfig) :
    Except String ((ℕ → ℕ → ℝ) × (ℕ → ℕ → ℝ)) :=
  (runBlocks c (localBlocks c) initState).map (fun s => (s.xf, s.xf_mean))

/-! ## Basic lemmas about weights and sampling -/

/-- The kernel values are strictly positive, whatever the bandwidth. -/
lemma kernelW_pos (c : AFConfig) (ctx : List ℕ) (i j : ℕ) : 0 < kernelW c ctx i j :=
  Real.exp_pos _

/-- Each row of `baseWeights` sums to 1 over its `k` entries, as long as there is
at least one neighbor. -/
lemma sum_baseWeights (c : AFConfig) (ctx : List ℕ) (i : ℕ) (hk : 1 ≤ c.k) :
    ∑ j ∈ Finset.range c.k, baseWeights c ctx i j = 1 := by
  unfold baseWeights
  by_cases h1 : c.k = 1
  · rw [if_pos h1, h1]
    simp
  · rw [if_neg h1]
    unfold mk_stochastic
    rw [← Finset.sum_div]
    apply div_self
    apply ne_of_gt
    apply Finset.sum_pos
    · intro j _
      exact kernelW_pos c ctx i j
    · exact Finset.nonempty_range_iff.mpr (by omega)

/-- The multinomial draw always lands inside the neighbor range. -/
lemma sampleDiscrete_lt (w : ℕ → ℝ) (k : ℕ) (u : ℝ) (hk : 1 ≤ k) :
    sampleDiscrete w k u < k := by
  unfold sampleDiscrete
  cases hf : (List.range k).find? (fun j => decide (u < cumsum w j)) with
  | none => simp only [Option.getD_none]; omega
  | some j =>
    have hm := List.mem_of_find?_eq_some hf
    simpa using List.mem_range.mp (by simpa using hm)

/-! ## Structural lemmas about the member and block loops -/

/-- Reading `writeRow` back at a written coordinate. -/
lemma writeRow_same (a : ℕ → ℕ → ℝ) (i : ℕ) (tgt : List ℕ) (f : ℕ → ℝ) (v : ℕ)
    (hv : v ∈ tgt) : writeRow a i tgt f i v = f v := by
  unfold writeRow
  rw [if_pos ⟨rfl, hv⟩]

/-- Reading `writeRow` back at an untouched coordinate. -/
lemma writeRow_other (a : ℕ → ℕ → ℝ) (i : ℕ) (tgt : List ℕ) (f : ℕ → ℝ) (i2 v : ℕ)
    (h : ¬(i2 = i ∧ v ∈ tgt)) : writeRow a i tgt f i2 v = a i2 v := by
  unfold writeRow
  rw [if_neg h]

/-- What a successful sampling step does to the state: the mean row is written
at the target columns, every coordinate outside row `i` × `tgt` is untouched,
and under multinomial sampling the written forecast row is the drawn row of
`xf_tmp`. -/
lemma sampleStep_ok (c : AFConfig) (ctx tgt : List ℕ) (i : ℕ) (s s2 : FState)
    (h : sampleStep c ctx tgt i s = Except.ok s2) :
    (∀ v ∈ tgt, s2.xf_mean i v = meanAt c ctx i v) ∧
    (∀ i2 v, ¬(i2 = i ∧ v ∈ tgt) →
      s2.xf i2 v = s.xf i2 v ∧ s2.xf_mean i2 v = s.xf_mean i2 v) ∧
    (c.sampling = "multinomial" → ∀ v ∈ tgt,
      s2.xf i v = xfTmpAt c ctx tgt i
        (sampleDiscrete (samplingWeights c ctx i) c.k (c.tape s.pos)) v) := by
  unfold sampleStep at h
  split at h
  · rename_i hg
    injection h with h2
    subst h2
    refine ⟨fun v hv => writeRow_same _ _ _ _ _ hv,
      fun i2 v hh => ⟨writeRow_other _ _ _ _ _ _ hh, writeRow_other _ _ _ _ _ _ hh⟩,
      fun hm => ?_⟩
    rw [hg] at hm
    exact absurd hm (by decide)
  · split at h
    · injection h with h2
      subst h2
      exact ⟨fun v hv => writeRow_same _ _ _ _ _ hv,
        fun i2 v hh => ⟨writeRow_other _ _ _ _ _ _ hh, writeRow_other _ _ _ _ _ _ hh⟩,
        fun _ => fun v hv => writeRow_same _ _ _ _ _ hv⟩
    · exact Except.noConfusion h

/-- A successful member step is a successful sampling step. -/
lemma memberStep_ok (c : AFConfig) (ctx tgt : List ℕ) (i : ℕ) (s s2 : FState)
    (h : memberStep c ctx tgt i s = Except.ok s2) :
    sampleStep c ctx tgt i s = Except.ok s2 := by
  unfold memberStep at h
  split at h
  · exact h
  · split at h
    · exact h
    · split at h
      · split at h
        · exact Except.noConfusion h
        · exact h
      · exact Except.noConfusion h

/-- The member loop leaves every coordinate outside the processed rows × target
columns untouched. -/
lemma runMembers_frame (c : AFConfig) (ctx tgt : List ℕ) :
    ∀ (l : List ℕ) (s s2 : FState), runMembers c ctx tgt l s = Except.ok s2 →
    ∀ i v, i ∉ l ∨ v ∉ tgt →
      s2.xf i v = s.xf i v ∧ s2.xf_mean i v = s.xf_mean i v := by
  intro l
  induction l with
  | nil =>
    intro s s2 h i v _
    unfold runMembers at h
    injection h with h2
    subst h2
    exact ⟨rfl, rfl⟩
  | cons a l ih =>
    intro s s2 h i v hiv
    unfold runMembers at h
    cases hm : memberStep c ctx tgt a s with
    | error e => rw [hm] at h; exact Except.noConfusion h
    | ok s1 =>
      rw [hm] at h
      have hchar := sampleStep_ok c ctx tgt a s s1 (memberStep_ok c ctx tgt a s s1 hm)
      have hrest := ih s1 s2 h i v (by
        rcases hiv with hi | hv
        · exact Or.inl (fun hm2 => hi (List.mem_cons_of_mem a hm2))
        · exact Or.inr hv)
      have hone : ¬(i = a ∧ v ∈ tgt) := by
        rcases hiv with hi | hv
        · intro hc; exact hi (hc.1 ▸ List.mem_cons_self a l)
        · intro hc; exact hv hc.2
      have h1 := hchar.2.1 i v hone
      exact ⟨hrest.1.trans h1.1, hrest.2.trans h1.2⟩

/-- The member loop writes the block mean into row `i` at the target columns,
and under multinomial sampling the written forecast row of member `i` is one of
the `k` rows of the member's candidate matrix `xf_tmp`. -/
lemma runMembers_char (c : AFConfig) (ctx tgt : List ℕ) :
    ∀ (l : List ℕ) (s s2 : FState), runMembers c ctx tgt l s = Except.ok s2 →
    l.Nodup → ∀ i ∈ l,
      (∀ v ∈ tgt, s2.xf_mean i v = meanAt c ctx i v) ∧
      (c.sampling = "multinomial" → ∃ j, (1 ≤ c.k → j < c.k) ∧
        ∀ v ∈ tgt, s2.xf i v = xfTmpAt c ctx tgt i j v) := by
  intro l
  induction l with
  | nil =>
    intro s s2 _ _ i hi
    exact absurd hi (List.not_mem_nil i)
  | cons a l ih =>
    intro s s2 h hnd i hi
    unfold runMembers at h
    cases hm : memberStep c ctx tgt a s with
    | error e => rw [hm] at h; exact Except.noConfusion h
    | ok s1 =>
      rw [hm] at h
      have hchar := sampleStep_ok c ctx tgt a s s1 (memberStep_ok c ctx tgt a s s1 hm)
      rcases List.mem_cons.mp hi with rfl | hmem
      · have hnotin : i ∉ l := (List.nodup_cons.mp hnd).1
        have hfr := fun v => runMembers_frame c ctx tgt l s1 s2 h i v (Or.inl hnotin)
        refine ⟨fun v hv => (hfr v).2.trans (hchar.1 v hv), fun hmu => ?_⟩
        refine ⟨sampleDiscrete (samplingWeights c ctx i) c.k (c.tape s.pos),
          fun hk => sampleDiscrete_lt _ _ _ hk,
          fun v hv => (hfr v).1.trans (hchar.2.2 hmu v hv)⟩
      · exact ih s1 s2 h (List.nodup_cons.mp hnd).2 i hmem

/-- If some member of the loop fails for every incoming state, the loop fails. -/
lemma runMembers_error (c : AFConfig) (ctx tgt : List ℕ) :
    ∀ (l : List ℕ) (s : FState) (i : ℕ), i ∈ l →
    (∀ s3 : FState, ∃ e, memberStep c ctx tgt i s3 = Except.error e) →
    ∃ e, runMembers c ctx tgt l s = Except.error e := by
  intro l
  induction l with
  | nil => intro s i hi; exact absurd hi (List.not_mem_nil i)
  | cons a l ih =>
    intro s i hi hfail
    unfold runMembers
    rcases List.mem_cons.mp hi with rfl | hmem
    · rcases hfail s with ⟨e, he⟩
      rw [he]
      exact ⟨e, rfl⟩
    · cases hm : memberStep c ctx tgt a s with
      | error e => exact ⟨e, rfl⟩
      | ok s1 => exact ih s1 i hmem hfail

/-- If every member step of the loop succeeds from every state, the member
loop succeeds. -/
lemma runMembers_ok (c : AFConfig) (ctx tgt : List ℕ) :
    ∀ (l : List ℕ),
    (∀ i ∈ l, ∀ (s3 : FState), ∃ s4, memberStep c ctx tgt i s3 = Except.ok s4) →
    ∀ (s : FState), ∃ s2, runMembers c ctx tgt l s = Except.ok s2 := by
  intro l
  induction l with
  | nil => intro _ s; exact ⟨s, rfl⟩
  | cons a l ih =>
    intro hall s
    rcases hall a (List.mem_cons_self a l) s with ⟨s1, h1⟩
    rcases ih (fun i hi s3 => hall i (List.mem_cons_of_mem a hi) s3) s1 with ⟨s2, h2⟩
    refine ⟨s2, ?_⟩
    unfold runMembers
    rw [h1]
    exact h2

/-- If every block of the loop succeeds from every state, the block loop
succeeds. -/
lemma runBlocks_ok (c : AFConfig) :
    ∀ (bs : List (List ℕ × List ℕ)),
    (∀ b ∈ bs, ∀ (s3 : FState), ∃ s4, blockRun c b s3 = Except.ok s4) →
    ∀ (s : FState), ∃ s2, runBlocks c bs s = Except.ok s2 := by
  intro bs
  induction bs with
  | nil => intro _ s; exact ⟨s, rfl⟩
  | cons b bs ih =>
    intro hall s
    rcases hall b (List.mem_cons_self b bs) s with ⟨s1, h1⟩
    rcases ih (fun b2 hb2 s3 => hall b2 (List.mem_cons_of_mem b hb2) s3) s1 with
      ⟨s2, h2⟩
    refine ⟨s2, ?_⟩
    unfold runBlocks
    rw [h1]
    exact h2

/-- The block loop leaves a variable untouched while no processed block targets
it. -/
lemma runBlocks_frame (c : AFConfig) :
    ∀ (bs : List (List ℕ × List ℕ)) (s s2 : FState), runBlocks c bs s = Except.ok s2 →
    ∀ i v, (∀ b ∈ bs, v ∉ b.2) →
      s2.xf i v = s.xf i v ∧ s2.xf_mean i v = s.xf_mean i v := by
  intro bs
  induction bs with
  | nil =>
    intro s s2 h i v _
    unfold runBlocks at h
    injection h with h2
    subst h2
    exact ⟨rfl, rfl⟩
  | cons b bs ih =>
    intro s s2 h i v hv
    unfold runBlocks at h
    cases hb : blockRun c b s with
    | error e => rw [hb] at h; exact Except.noConfusion h
    | ok s1 =>
      rw [hb] at h
      unfold blockRun at hb
      cases hc : knnCheck c b.1 with
      | error e => rw [hc] at hb; exact Except.noConfusion hb
      | ok u =>
        rw [hc] at hb
        have hfr := runMembers_frame c b.1 b.2 (List.range c.N) s s1 hb i v
          (Or.inr (hv b (List.mem_cons_self b bs)))
        have hrest := ih s1 s2 h i v (fun b2 hb2 => hv b2 (List.mem_cons_of_mem b hb2))
        exact ⟨hrest.1.trans hfr.1, hrest.2.trans hfr.2⟩

/-- If some block of the loop fails for every incoming state, the loop fails. -/
lemma runBlocks_error (c : AFConfig) :
    ∀ (bs : List (List ℕ × List ℕ)) (s : FState) (b : List ℕ × List ℕ), b ∈ bs →
    (∀ s3 : FState, ∃ e, blockRun c b s3 = Except.error e) →
    ∃ e, runBlocks c bs s = Except.error e := by
  intro bs
  induction bs with
  | nil => intro s b hb; exact absurd hb (List.not_mem_nil b)
  | cons b0 bs ih =>
    intro s b hb hfail
    unfold runBlocks
    rcases List.mem_cons.mp hb with rfl | hmem
    · rcases hfail s with ⟨e, he⟩
      rw [he]
      exact ⟨e, rfl⟩
    · cases hb0 : blockRun c b0 s with
      | error e => exact ⟨e, rfl⟩
      | ok s1 => exact ih s1 b hmem hfail

/-- The block loop writes the block mean of the unique block targeting `v` into
`xf_mean`. -/
lemma runBlocks_mean (c : AFConfig) :
    ∀ (bs : List (List ℕ × List ℕ)) (s s2 : FState), runBlocks c bs s = Except.ok s2 →
    bs.Nodup → ∀ b ∈ bs, ∀ i ∈ List.range c.N, ∀ v ∈ b.2,
    (∀ b2 ∈ bs, v ∈ b2.2 → b2 = b) →
    s2.xf_mean i v = meanAt c b.1 i v := by
  intro bs
  induction bs with
  | nil => intro s s2 _ _ b hb; exact absurd hb (List.not_mem_nil b)
  | cons b0 bs ih =>
    intro s s2 h hnd b hb i hi v hv huniq
    unfold runBlocks at h
    cases hb0 : blockRun c b0 s with
    | error e => rw [hb0] at h; exact Except.noConfusion h
    | ok s1 =>
      rw [hb0] at h
      rcases List.mem_cons.mp hb with rfl | hmem
      · unfold blockRun at hb0
        cases hc : knnCheck c b.1 with
        | error e => rw [hc] at hb0; exact Except.noConfusion hb0
        | ok u =>
          rw [hc] at hb0
          have hm1 := (runMembers_char c b.1 b.2 (List.range c.N) s s1 hb0
            (List.nodup_range c.N) i hi).1 v hv
          have hnotin : ∀ b2 ∈ bs, v ∉ b2.2 := by
            intro b2 hb2 hv2
            have heq := huniq b2 (List.mem_cons_of_mem b hb2) hv2
            exact (List.nodup_cons.mp hnd).1 (heq ▸ hb2)
          have hfr := runBlocks_frame c bs s1 s2 h i v hnotin
          exact hfr.2.trans hm1
      · exact ih s1 s2 h (List.nodup_cons.mp hnd).2 b hmem i hi v hv
          (fun b2 hb2 hv2 => huniq b2 (List.mem_cons_of_mem b0 hb2) hv2)

/-- The executed block list has no duplicate blocks. -/
lemma blocksOf_nodup (c : AFConfig) : (blocksOf c).Nodup := by
  unfold blocksOf
  by_cases h : allOnes c
  · rw [if_pos h]
    exact List.nodup_singleton _
  · rw [if_neg h]
    unfold localBlocks
    refine (List.nodup_range c.n).map ?_
    intro a b hab
    have := congrArg Prod.snd hab
    simpa using this

/-- In the executed block list, a variable belongs to the target of at most one
block. -/
lemma blocksOf_unique (c : AFConfig) (b : List ℕ × List ℕ) (hb : b ∈ blocksOf c)
    (v : ℕ) (hv : v ∈ b.2) : ∀ b2 ∈ blocksOf c, v ∈ b2.2 → b2 = b := by
  intro b2 hb2 hv2
  unfold blocksOf at hb hb2
  by_cases h : allOnes c
  · rw [if_pos h] at hb hb2
    rw [List.mem_singleton.mp hb2, List.mem_singleton.mp hb]
  · rw [if_neg h] at hb hb2
    unfold localBlocks at hb hb2
    rcases List.mem_map.mp hb with ⟨j, _, rfl⟩
    rcases List.mem_map.mp hb2 with ⟨j2, _, rfl⟩
    have h1 : v = j := by simpa using hv
    have h2 : v = j2 := by simpa using hv2
    rw [← h1, ← h2]

/-- Final-output characterization of the forecast mean: for every block `b` of
the executed run and target variable `v` of `b`, the returned `xf_mean[i,v]` is
the block mean computed by the regression branch with `b`'s context. -/
lemma run_mean (c : AFConfig) (p : (ℕ → ℕ → ℝ) × (ℕ → ℕ → ℝ))
    (h : AnDA_analog_forecasting c = Except.ok p)
    (b : List ℕ × List ℕ) (hb : b ∈ blocksOf c) (i : ℕ) (hi : i < c.N)
    (v : ℕ) (hv : v ∈ b.2) : p.2 i v = meanAt c b.1 i v := by
  unfold AnDA_analog_forecasting at h
  cases hr : runBlocks c (blocksOf c) initState with
  | error e => rw [hr] at h; exact Except.noConfusion h
  | ok s2 =>
    rw [hr] at h
    injection h with h2
    subst h2
    exact runBlocks_mean c (blocksOf c) initState s2 hr (blocksOf_nodup c) b hb i
      (List.mem_range.mpr hi) v hv (blocksOf_unique c b hb v hv)

/-- Final-output characterization of the forecast mean for the forced local
run: `xf_mean[i,v]` is the mean of the one-variable block of `v`. -/
lemma runLocal_mean (c : AFConfig) (p : (ℕ → ℕ → ℝ) × (ℕ → ℕ → ℝ))
    (h : forecastLocalForced c = Except.ok p) (i : ℕ) (hi : i < c.N)
    (v : ℕ) (hv : v < c.n) : p.2 i v = meanAt c (ctxVars c v) i v := by
  unfold forecastLocalForced at h
  cases hr : runBlocks c (localBlocks c) initState with
  | error e => rw [hr] at h; exact Except.noConfusion h
  | ok s2 =>
    rw [hr] at h
    injection h with h2
    subst h2
    have hmem : (ctxVars c v, [v]) ∈ localBlocks c := by
      unfold localBlocks
      exact List.mem_map.mpr ⟨v, List.mem_range.mpr hv, rfl⟩
    have hnd : (localBlocks c).Nodup := by
      unfold localBlocks
      refine (List.nodup_range c.n).map ?_
      intro a b hab
      have := congrArg Prod.snd hab
      simpa using this
    refine runBlocks_mean c (localBlocks c) initState s2 hr hnd (ctxVars c v, [v])
      hmem i (List.mem_range.mpr hi) v (by simp) ?_
    intro b2 hb2 hv2
    unfold localBlocks at hb2
    rcases List.mem_map.mp hb2 with ⟨j2, _, rfl⟩
    have h2 : v = j2 := by simpa using hv2
    rw [← h2]

/-! ## Helper lemmas about validation, blocks and neighbor indices -/

/-- A successful sklearn validation pins down the dimension facts. -/
lemma knnCheck_ok (c : AFConfig) (ctx : List ℕ) (u : Unit)
    (h : knnCheck c ctx = Except.ok u) :
    1 ≤ c.M ∧ ctx ≠ [] ∧ 1 ≤ c.N ∧ 1 ≤ c.k ∧ c.k ≤ c.M := by
  unfold knnCheck at h
  split_ifs at h with h1 h2 h3 h4 h5
  exact ⟨by omega, h2, by omega, by omega, by omega⟩

/-- `k` larger than the catalog makes the sklearn validation fail. -/
lemma knnCheck_error_of (c : AFConfig) (ctx : List ℕ) (h : c.M < c.k) :
    ∃ e, knnCheck c ctx = Except.error e := by
  unfold knnCheck
  split_ifs with h1 h2 h3 h4 h5
  all_goals exact ⟨_, rfl⟩

/-- The while loop always executes at least one block. -/
lemma blocksOf_ne_nil (c : AFConfig) : blocksOf c ≠ [] := by
  unfold blocksOf
  by_cases h : allOnes c
  · rw [if_pos h]
    simp
  · rw [if_neg h]
    unfold localBlocks
    intro hc
    apply h
    intro i hi j hj
    have hn : c.n = 0 := by simpa using hc
    omega

/-- Every target variable of an executed block is a genuine state variable. -/
lemma blocksOf_tgt_lt (c : AFConfig) (b : List ℕ × List ℕ) (hb : b ∈ blocksOf c)
    (v : ℕ) (hv : v ∈ b.2) : v < c.n := by
  unfold blocksOf at hb
  by_cases h : allOnes c
  · rw [if_pos h] at hb
    rw [List.mem_singleton.mp hb] at hv
    simpa using hv
  · rw [if_neg h] at hb
    unfold localBlocks at hb
    rcases List.mem_map.mp hb with ⟨j, hj, rfl⟩
    have : v = j := by simpa using hv
    subst this
    simpa using hj

/-- Insertion keeps list membership. -/
lemma mem_insertNear (c : AFConfig) (ctx : List ℕ) (i a : ℕ) :
    ∀ (l : List ℕ) (m : ℕ), m ∈ insertNear c ctx i a l → m = a ∨ m ∈ l := by
  intro l
  induction l with
  | nil =>
    intro m hm
    unfold insertNear at hm
    simpa using hm
  | cons b l ih =>
    intro m hm
    unfold insertNear at hm
    by_cases hc : nearer c ctx i a b
    · rw [if_pos hc] at hm
      rcases List.mem_cons.mp hm with rfl | hm2
      · exact Or.inl rfl
      · exact Or.inr hm2
    · rw [if_neg hc] at hm
      rcases List.mem_cons.mp hm with rfl | hm2
      · exact Or.inr (List.mem_cons_self m l)
      · rcases ih m hm2 with h1 | h2
        · exact Or.inl h1
        · exact Or.inr (List.mem_cons_of_mem b h2)

/-- The modelled KDTree sort holds exactly catalog indices. -/
lemma mem_sortNear (c : AFConfig) (ctx : List ℕ) (i : ℕ) :
    ∀ (l : List ℕ) (m : ℕ), m ∈ sortNear c ctx i l → m ∈ l := by
  intro l
  induction l with
  | nil => intro m hm; unfold sortNear at hm; simpa using hm
  | cons a l ih =>
    intro m hm
    unfold sortNear at hm
    rcases mem_insertNear c ctx i a (sortNear c ctx i l) m hm with rfl | h2
    · exact List.mem_cons_self m l
    · exact List.mem_cons_of_mem a (ih m h2)

/-- Every neighbor index returned by the modelled KDTree query is a valid
catalog row. -/
lemma index_knn_lt (c : AFConfig) (ctx : List ℕ) (i j : ℕ) (hM : 1 ≤ c.M) :
    index_knn c ctx i j < c.M := by
  unfold index_knn
  rcases Nat.lt_or_ge j (knnIdx c ctx i).length with hj | hj
  · rw [List.getD_eq_getElem _ _ hj]
    have hmem : (knnIdx c ctx i)[j] ∈ knnIdx c ctx i := List.getElem_mem hj
    have h2 : (knnIdx c ctx i)[j] ∈ sortNear c ctx i (List.range c.M) := by
      unfold knnIdx at hmem
      exact List.take_subset _ _ hmem
    exact List.mem_range.mp (mem_sortNear c ctx i _ _ h2)
  · rw [List.getD_eq_default _ _ hj]
    omega

/-- Every executed block passed the sklearn validation. -/
lemma runBlocks_ok_check (c : AFConfig) :
    ∀ (bs : List (List ℕ × List ℕ)) (s s2 : FState), runBlocks c bs s = Except.ok s2 →
    ∀ b ∈ bs, ∃ u, knnCheck c b.1 = Except.ok u := by
  intro bs
  induction bs with
  | nil => intro s s2 _ b hb; exact absurd hb (List.not_mem_nil b)
  | cons b0 bs ih =>
    intro s s2 h b hb
    unfold runBlocks at h
    cases hb0 : blockRun c b0 s with
    | error e => rw [hb0] at h; exact Except.noConfusion h
    | ok s1 =>
      rw [hb0] at h
      rcases List.mem_cons.mp hb with rfl | hmem
      · unfold blockRun at hb0
        cases hc : knnCheck c b.1 with
        | error e => rw [hc] at hb0; exact Except.noConfusion hb0
        | ok u => exact ⟨u, rfl⟩
      · exact ih s1 s2 h b hmem

/-- A successful whole run validates every executed block. -/
lemma run_ok_check (c : AFConfig) (p : (ℕ → ℕ → ℝ) × (ℕ → ℕ → ℝ))
    (h : AnDA_analog_forecasting c = Except.ok p) (b : List ℕ × List ℕ)
    (hb : b ∈ blocksOf c) : ∃ u, knnCheck c b.1 = Except.ok u := by
  unfold AnDA_analog_forecasting at h
  cases hr : runBlocks c (blocksOf c) initState with
  | error e => rw [hr] at h; exact Except.noConfusion h
  | ok s2 => exact runBlocks_ok_check c (blocksOf c) initState s2 hr b hb

/-! ## Claim theorems (part 1) -/

/-- Claim C1: with `regression = locally_constant` and `k = 1`, the forecast
mean returned for every ensemble member at every target variable of every
executed block is exactly the successor value of the member's single nearest
analog (`index_knn[i,0]`), and the member's single weight at sampling time is
exactly 1. -/
theorem C1_locally_constant_k1 (c : AFConfig) (p : (ℕ → ℕ → ℝ) × (ℕ → ℕ → ℝ))
    (hreg : c.regression = "locally_constant") (hk : c.k = 1)
    (hok : AnDA_analog_forecasting c = Except.ok p)
    (b : List ℕ × List ℕ) (hb : b ∈ blocksOf c) (i : ℕ) (hi : i < c.N)
    (v : ℕ) (hv : v ∈ b.2) :
    p.2 i v = c.successors (index_knn c b.1 i 0) v ∧
    samplingWeights c b.1 i 0 = 1 := by
  have hmean := run_mean c p hok b hb i hi v hv
  have hne : ¬ c.regression = "local_linear" := by rw [hreg]; decide
  constructor
  · rw [hmean]
    unfold meanAt
    rw [if_neg hne, hk, Finset.range_one, Finset.sum_singleton]
    unfold baseWeights
    rw [hk, if_pos rfl]
    unfold fcAt
    rw [if_pos hreg]
    ring
  · unfold samplingWeights
    rw [if_neg hne]
    unfold baseWeights
    rw [hk, if_pos rfl]

/-- Claim C2: with `regression = increment` and a catalog in which every
successor row equals its analog row, the forecast mean returned for every
member at every target variable is the member's own current value. -/
theorem C2_increment_identity (c : AFConfig) (p : (ℕ → ℕ → ℝ) × (ℕ → ℕ → ℝ))
    (hreg : c.regression = "increment")
    (hcat : ∀ m < c.M, ∀ v < c.n, c.successors m v = c.analogs m v)
    (hok : AnDA_analog_forecasting c = Except.ok p)
    (b : List ℕ × List ℕ) (hb : b ∈ blocksOf c) (i : ℕ) (hi : i < c.N)
    (v : ℕ) (hv : v ∈ b.2) :
    p.2 i v = c.x i v := by
  have hmean := run_mean c p hok b hb i hi v hv
  have hne : ¬ c.regression = "local_linear" := by rw [hreg]; decide
  have hnlc : ¬ c.regression = "locally_constant" := by rw [hreg]; decide
  rcases run_ok_check c p hok b hb with ⟨u, hu⟩
  rcases knnCheck_ok c b.1 u hu with ⟨hM, _, _, hk1, _⟩
  have hvn : v < c.n := blocksOf_tgt_lt c b hb v hv
  rw [hmean]
  unfold meanAt
  rw [if_neg hne]
  have hterm : ∀ j ∈ Finset.range c.k,
      baseWeights c b.1 i j * fcAt c b.1 i j v = baseWeights c b.1 i j * c.x i v := by
    intro j _
    unfold fcAt
    rw [if_neg hnlc, if_pos hreg,
      hcat (index_knn c b.1 i j) (index_knn_lt c b.1 i j hM) v hvn]
    ring
  rw [Finset.sum_congr rfl hterm, ← Finset.sum_mul, sum_baseWeights c b.1 i hk1,
    one_mul]

/-- Claim C3: for `k > 1`, the kernel weights a member carries into the
sampling step sum to 1 over its `k` neighbors, except under
`regression = local_linear`, where they are all exactly `1/k` at sampling
time. -/
theorem C3_weights_stochastic (c : AFConfig) (hk : 1 < c.k) (i : ℕ)
    (hi : i < c.N) (b : List ℕ × List ℕ) (hb : b ∈ blocksOf c) :
    (c.regression ≠ "local_linear" →
      ∑ j ∈ Finset.range c.k, samplingWeights c b.1 i j = 1) ∧
    (c.regression = "local_linear" →
      ∀ j, samplingWeights c b.1 i j = 1 / (c.k : ℝ)) := by
  constructor
  · intro hne
    have hs : ∀ j ∈ Finset.range c.k,
        samplingWeights c b.1 i j = baseWeights c b.1 i j := by
      intro j _
      unfold samplingWeights
      rw [if_neg hne]
    rw [Finset.sum_congr rfl hs]
    exact sum_baseWeights c b.1 i (le_of_lt hk)
  · intro he j
    unfold samplingWeights
    rw [if_pos he]

/-! ## Claim theorems (part 2): sampling, validation, frame -/

/-- Claim C4: under multinomial sampling, the forecast row written for a member
by a successful block iteration is (for the block's target variables) one of
the `k` rows of that member's candidate matrix `xf_tmp`, never an interpolated
value. -/
theorem C4_multinomial_candidate (c : AFConfig) (ctx tgt : List ℕ)
    (hs : c.sampling = "multinomial") (s s2 : FState)
    (hrun : blockRun c (ctx, tgt) s = Except.ok s2) (i : ℕ) (hi : i < c.N) :
    ∃ j < c.k, ∀ v ∈ tgt, s2.xf i v = xfTmpAt c ctx tgt i j v := by
  unfold blockRun at hrun
  cases hc : knnCheck c ctx with
  | error e => rw [hc] at hrun; exact Except.noConfusion hrun
  | ok u =>
    rw [hc] at hrun
    rcases knnCheck_ok c ctx u hc with ⟨_, _, _, hk1, _⟩
    have hchar := (runMembers_char c ctx tgt (List.range c.N) s s2 hrun
      (List.nodup_range c.N) i (List.mem_range.mpr hi)).2 hs
    rcases hchar with ⟨j, hjk, hrow⟩
    exact ⟨j, hjk hk1, hrow⟩

/-- Claim C6: `k` exceeding the catalog size makes the call fail (with
sklearn's validation error at the first query) before any forecasting work; no
output is produced. -/
theorem C6_k_exceeds_catalog (c : AFConfig) (hkM : c.M < c.k) :
    ∃ e, AnDA_analog_forecasting c = Except.error e := by
  rcases List.exists_mem_of_ne_nil (blocksOf c) (blocksOf_ne_nil c) with ⟨b, hb⟩
  have hfail : ∀ s3 : FState, ∃ e, blockRun c b s3 = Except.error e := by
    intro s3
    rcases knnCheck_error_of c b.1 hkM with ⟨e, he⟩
    refine ⟨e, ?_⟩
    unfold blockRun
    rw [he]
  rcases runBlocks_error c (blocksOf c) initState b hb hfail with ⟨e, he⟩
  refine ⟨e, ?_⟩
  unfold AnDA_analog_forecasting
  rw [he]
  rfl

/-- An unrecognized sampling string makes the sampling step fail from any
state. -/
lemma sampleStep_error_of (c : AFConfig) (ctx tgt : List ℕ) (i : ℕ)
    (hbad : c.sampling ∉ ["gaussian", "multinomial"]) (s : FState) :
    ∃ e, sampleStep c ctx tgt i s = Except.error e := by
  have hg : ¬ c.sampling = "gaussian" := by
    intro hc; exact hbad (by rw [hc]; decide)
  have hm : ¬ c.sampling = "multinomial" := by
    intro hc; exact hbad (by rw [hc]; decide)
  unfold sampleStep
  rw [if_neg hg, if_neg hm]
  exact ⟨_, rfl⟩

/-- An unrecognized regression or sampling string makes the member step fail
from any state. -/
lemma memberStep_error_of (c : AFConfig) (ctx tgt : List ℕ) (i : ℕ)
    (hbad : c.regression ∉ ["locally_constant", "increment", "local_linear"] ∨
      c.sampling ∉ ["gaussian", "multinomial"]) (s : FState) :
    ∃ e, memberStep c ctx tgt i s = Except.error e := by
  unfold memberStep
  rcases hbad with hr | hs
  · have h1 : ¬ c.regression = "locally_constant" := by
      intro hc; exact hr (by rw [hc]; decide)
    have h2 : ¬ c.regression = "increment" := by
      intro hc; exact hr (by rw [hc]; decide)
    have h3 : ¬ c.regression = "local_linear" := by
      intro hc; exact hr (by rw [hc]; decide)
    rw [if_neg h1, if_neg h2, if_neg h3]
    exact ⟨_, rfl⟩
  · by_cases h1 : c.regression = "locally_constant"
    · rw [if_pos h1]
      exact sampleStep_error_of c ctx tgt i hs s
    · rw [if_neg h1]
      by_cases h2 : c.regression = "increment"
      · rw [if_pos h2]
        exact sampleStep_error_of c ctx tgt i hs s
      · rw [if_neg h2]
        by_cases h3 : c.regression = "local_linear"
        · rw [if_pos h3]
          by_cases h4 : detCxx c ctx i = 0
          · rw [if_pos h4]
            exact ⟨_, rfl⟩
          · rw [if_neg h4]
            exact sampleStep_error_of c ctx tgt i hs s
        · rw [if_neg h3]
          exact ⟨_, rfl⟩

/-- Claim C7: an unrecognized `regression` or `sampling` configuration value
makes the whole call fail before any output is produced: no forecast arrays are
returned. -/
theorem C7_bad_config_fatal (c : AFConfig)
    (hbad : c.regression ∉ ["locally_constant", "increment", "local_linear"] ∨
      c.sampling ∉ ["gaussian", "multinomial"]) :
    ∃ e, AnDA_analog_forecasting c = Except.error e := by
  rcases List.exists_mem_of_ne_nil (blocksOf c) (blocksOf_ne_nil c) with ⟨b, hb⟩
  have hfail : ∀ s3 : FState, ∃ e, blockRun c b s3 = Except.error e := by
    intro s3
    unfold blockRun
    cases hc : knnCheck c b.1 with
    | error e => exact ⟨e, rfl⟩
    | ok u =>
      rcases knnCheck_ok c b.1 u hc with ⟨_, _, hN, _, _⟩
      exact runMembers_error c b.1 b.2 (List.range c.N) s3 0
        (List.mem_range.mpr (by omega))
        (fun s4 => memberStep_error_of c b.1 b.2 0 hbad s4)
  rcases runBlocks_error c (blocksOf c) initState b hb hfail with ⟨e, he⟩
  refine ⟨e, ?_⟩
  unfold AnDA_analog_forecasting
  rw [he]
  rfl

/-- Claim C9: in local mode, one iteration of the block cursor (the blocks are
exactly `(ctxVars j, [j])` for `j = 0, …, n-1` in order) writes only its target
column of the output arrays `xf` and `xf_mean`: every other column of every row
still holds the value it had before the iteration. -/
theorem C9_local_frame (c : AFConfig) (b : List ℕ × List ℕ)
    (hb : b ∈ localBlocks c) (s s2 : FState)
    (hrun : blockRun c b s = Except.ok s2) (i v : ℕ) (hv : v ∉ b.2) :
    s2.xf i v = s.xf i v ∧ s2.xf_mean i v = s.xf_mean i v := by
  unfold blockRun at hrun
  cases hc : knnCheck c b.1 with
  | error e => rw [hc] at hrun; exact Except.noConfusion hrun
  | ok u =>
    rw [hc] at hrun
    exact runMembers_frame c b.1 b.2 (List.range c.N) s s2 hrun i v (Or.inr hv)

/-- Gaussian sampling never fails. -/
lemma sampleStep_gaussian_ok (c : AFConfig) (ctx tgt : List ℕ) (i : ℕ)
    (hg : c.sampling = "gaussian") (s : FState) :
    ∃ s2, sampleStep c ctx tgt i s = Except.ok s2 := by
  unfold sampleStep
  rw [if_pos hg]
  exact ⟨_, rfl⟩

/-- A locally-constant or incremental member step with Gaussian sampling never
fails. -/
lemma memberStep_ok_of (c : AFConfig) (ctx tgt : List ℕ) (i : ℕ)
    (hreg : c.regression = "locally_constant" ∨ c.regression = "increment")
    (hg : c.sampling = "gaussian") (s : FState) :
    ∃ s2, memberStep c ctx tgt i s = Except.ok s2 := by
  unfold memberStep
  rcases hreg with h1 | h2
  · rw [if_pos h1]
    exact sampleStep_gaussian_ok c ctx tgt i hg s
  · have hnlc : ¬ c.regression = "locally_constant" := by rw [h2]; decide
    rw [if_neg hnlc, if_pos h2]
    exact sampleStep_gaussian_ok c ctx tgt i hg s

/-- Claim C10: with `k = 1` and the locally-constant or incremental regression,
the single weight is 1, so the covariance normalizer `1/(1-Σw²)` divides by a
zero denominator (`covDenom = 0`; in floating point the transient covariance is
non-finite), and the routine neither rejects this configuration nor
special-cases the covariance: with Gaussian sampling and otherwise valid
dimensions the call still returns normally. -/
theorem C10_k1_degenerate_covariance (c : AFConfig) (hk : c.k = 1)
    (hreg : c.regression = "locally_constant" ∨ c.regression = "increment") :
    (∀ (ctx : List ℕ) (i : ℕ), covDenom c ctx i = 0) ∧
    (c.sampling = "gaussian" → allOnes c → 1 ≤ c.n → 1 ≤ c.N → 1 ≤ c.M →
      ∃ p, AnDA_analog_forecasting c = Except.ok p) := by
  constructor
  · intro ctx i
    unfold covDenom
    rw [hk, Finset.range_one, Finset.sum_singleton]
    unfold baseWeights
    rw [hk, if_pos rfl]
    norm_num
  · intro hg hall hn hN hM
    have hblocks : blocksOf c = [(List.range c.n, List.range c.n)] := by
      unfold blocksOf
      rw [if_pos hall]
    have hcheck : knnCheck c (List.range c.n) = Except.ok () := by
      unfold knnCheck
      rw [if_neg (by omega : ¬ c.M = 0),
        if_neg (by simpa using (by omega : ¬ c.n = 0) : ¬ List.range c.n = []),
        if_neg (by omega : ¬ c.N = 0), if_neg (by omega : ¬ c.k < 1),
        if_neg (by omega : ¬ c.M < c.k)]
    rcases runMembers_ok c (List.range c.n) (List.range c.n) (List.range c.N)
      (fun i _ s3 => memberStep_ok_of c (List.range c.n) (List.range c.n) i hreg hg s3)
      initState with ⟨s2, hs2⟩
    refine ⟨(s2.xf, s2.xf_mean), ?_⟩
    unfold AnDA_analog_forecasting
    rw [hblocks]
    unfold runBlocks
    unfold blockRun
    rw [hcheck]
    simp only [hs2]
    rfl

/-- With an all-ones neighborhood, the context of every variable is the full
variable range. -/
lemma ctxVars_allOnes (c : AFConfig) (hall : allOnes c) (v : ℕ) (hv : v < c.n) :
    ctxVars c v = List.range c.n := by
  unfold ctxVars
  apply List.filter_eq_self.mpr
  intro u hu
  exact decide_eq_true (hall v hv u (List.mem_range.mp hu))

/-- Claim C5 (amended): with an all-ones neighborhood the routine performs a
single pass over all `n` variables, and its forecast mean is identical to the
one produced by the forced local iteration in which every variable's context is
the full variable set.  (The sampled output `xf` is not compared: the two modes
consume the random tape in different orders, see the counterexample.) -/
theorem C5_amended_global_vs_local_mean (c : AFConfig) (hall : allOnes c)
    (pg pl : (ℕ → ℕ → ℝ) × (ℕ → ℕ → ℝ))
    (hg : AnDA_analog_forecasting c = Except.ok pg)
    (hl : forecastLocalForced c = Except.ok pl) :
    blocksOf c = [(List.range c.n, List.range c.n)] ∧
    ∀ i < c.N, ∀ v < c.n, pg.2 i v = pl.2 i v := by
  have hb : blocksOf c = [(List.range c.n, List.range c.n)] := by
    unfold blocksOf
    rw [if_pos hall]
  refine ⟨hb, fun i hi v hv => ?_⟩
  have h1 := run_mean c pg hg (List.range c.n, List.range c.n)
    (by rw [hb]; exact List.mem_singleton.mpr rfl) i hi v (List.mem_range.mpr hv)
  have h2 := runLocal_mean c pl hl i hi v hv
  rw [h1, h2, ctxVars_allOnes c hall v hv]

/-! ## Concrete configurations for witnesses and counterexamples -/

/-- `k = 2` against a single-row catalog: the C6 witness input. -/
noncomputable def cfgC6 : AFConfig :=
  ⟨1, 1, 1, fun _ _ => 0, fun _ _ => 0, fun _ _ => 0, fun _ _ => 1, 2,
    "locally_constant", "multinomial", fun _ => 0,
    fun _ _ _ => (fun _ => 0, fun _ _ => 0), fun _ _ _ _ => 0⟩

/-- An unrecognized regression string: the C7 witness input. -/
noncomputable def cfgC7 : AFConfig :=
  ⟨1, 1, 1, fun _ _ => 0, fun _ _ => 0, fun _ _ => 0, fun _ _ => 1, 1,
    "bogus", "multinomial", fun _ => 0,
    fun _ _ _ => (fun _ => 0, fun _ _ => 0), fun _ _ _ _ => 0⟩

/-- `k = 1`, locally-constant, Gaussian sampling: the C10 witness input. -/
noncomputable def cfgW10 : AFConfig :=
  ⟨1, 1, 1, fun _ _ => 3, fun _ _ => 5, fun _ _ => 7, fun _ _ => 1, 1,
    "locally_constant", "gaussian", fun _ => 0,
    fun _ _ _ => (fun _ => 0, fun _ _ => 0), fun _ _ _ _ => 0⟩

/-- One member, two variables, a two-row catalog equidistant from the member,
`k = 2`, locally-constant regression, multinomial sampling, all-ones
neighborhood.  The tape yields `0` for the first draw and `3/4` for the second,
so the global single pass (one draw) and the forced local iteration (one draw
per variable) select different neighbors. -/
noncomputable def cfgCE1 : AFConfig :=
  ⟨1, 2, 2, fun _ _ => 0,
    fun m _ => if m = 0 then 1 else -1,
    fun m v => if m = 0 then (if v = 0 then 10 else 20) else (if v = 0 then 30 else 40),
    fun _ _ => 1, 2, "locally_constant", "multinomial",
    fun t => if t = 0 then 0 else 3 / 4,
    fun _ _ _ => (fun _ => 0, fun _ _ => 0), fun _ _ _ _ => 0⟩

/-- The all-ones test holds for the C5/C3 input. -/
lemma cfgCE1_allOnes : allOnes cfgCE1 := by
  intro i _ j _
  rfl

/-- The executed block list of the C5/C3 input is the single global pass. -/
lemma cfgCE1_blocks : blocksOf cfgCE1 = [(List.range 2, List.range 2)] := by
  unfold blocksOf
  rw [if_pos cfgCE1_allOnes]
  rfl

/-! ## Witnesses for the validation and weight claims -/

/-- Witness for C6 at `cfgC6` (`k = 2 > M = 1`): the call errors out. -/
theorem C6_k_exceeds_catalog_witness :
    cfgC6.M < cfgC6.k ∧ ∃ e, AnDA_analog_forecasting cfgC6 = Except.error e :=
  ⟨by norm_num [cfgC6], C6_k_exceeds_catalog cfgC6 (by norm_num [cfgC6])⟩

/-- Witness for C7 at `cfgC7` (`regression = "bogus"`): the call errors out. -/
theorem C7_bad_config_fatal_witness :
    cfgC7.regression ∉ ["locally_constant", "increment", "local_linear"] ∧
    ∃ e, AnDA_analog_forecasting cfgC7 = Except.error e :=
  ⟨by decide, C7_bad_config_fatal cfgC7 (Or.inl (by decide))⟩

/-- Witness for C10 at `cfgW10` (`k = 1`, locally-constant, Gaussian): the
covariance denominator is zero yet the call returns normally. -/
theorem C10_k1_degenerate_covariance_witness :
    cfgW10.k = 1 ∧ covDenom cfgW10 [0] 0 = 0 ∧
    ∃ p, AnDA_analog_forecasting cfgW10 = Except.ok p := by
  have h := C10_k1_degenerate_covariance cfgW10 rfl (Or.inl rfl)
  exact ⟨rfl, h.1 [0] 0,
    h.2 rfl (fun i _ j _ => rfl) (by norm_num [cfgW10]) (by norm_num [cfgW10])
      (by norm_num [cfgW10])⟩

/-- Witness for C3 at `cfgCE1` (`k = 2`, locally-constant): the sampling-time
weights of member 0 in the global block sum to 1. -/
theorem C3_weights_stochastic_witness :
    1 < cfgCE1.k ∧
    ((cfgCE1.regression ≠ "local_linear" →
      ∑ j ∈ Finset.range cfgCE1.k,
        samplingWeights cfgCE1 (List.range 2) 0 j = 1) ∧
     (cfgCE1.regression = "local_linear" →
      ∀ j, samplingWeights cfgCE1 (List.range 2) 0 j = 1 / (cfgCE1.k : ℝ))) :=
  ⟨by norm_num [cfgCE1],
    C3_weights_stochastic cfgCE1 (by norm_num [cfgCE1]) 0 (by norm_num [cfgCE1])
      (List.range 2, List.range 2)
      (by rw [cfgCE1_blocks]; exact List.mem_singleton.mpr rfl)⟩

/-! ## Concrete evaluation of the C5 input -/

/-- Both catalog rows of `cfgCE1` are at distance `√2` from the single member. -/
lemma cfgCE1_dist (m : ℕ) (hm : m < 2) :
    distTo cfgCE1 (List.range 2) 0 m = Real.sqrt 2 := by
  interval_cases m <;>
    (unfold distTo
     rw [show List.range 2 = [0, 1] from rfl]
     norm_num [cfgCE1])

/-- The modelled KDTree query of `cfgCE1` returns the catalog rows in index
order (a tie at distance `√2`). -/
lemma cfgCE1_knn : knnIdx cfgCE1 (List.range 2) 0 = [0, 1] := by
  have hn : nearer cfgCE1 (List.range 2) 0 0 1 :=
    Or.inr ⟨by rw [cfgCE1_dist 0 (by omega), cfgCE1_dist 1 (by omega)], by omega⟩
  unfold knnIdx
  rw [show List.range cfgCE1.M = [0, 1] from rfl]
  simp only [sortNear, insertNear]
  rw [if_pos hn]
  rfl

/-- The neighbor indices of the single member of `cfgCE1`. -/
lemma cfgCE1_index (j : ℕ) (hj : j < 2) :
    index_knn cfgCE1 (List.range 2) 0 j = j := by
  unfold index_knn
  rw [cfgCE1_knn]
  interval_cases j <;> rfl

/-- Both neighbor distances of `cfgCE1` equal `√2`. -/
lemma cfgCE1_dist_knn (j : ℕ) (hj : j < 2) :
    dist_knn cfgCE1 (List.range 2) 0 j = Real.sqrt 2 := by
  unfold dist_knn
  rw [cfgCE1_index j hj]
  exact cfgCE1_dist j hj

/-- The kernel bandwidth of the single block of `cfgCE1` is `√2`. -/
lemma cfgCE1_lambdaa : lambdaa cfgCE1 (List.range 2) = Real.sqrt 2 := by
  unfold lambdaa
  rw [show List.range cfgCE1.N = [0] from rfl,
    show List.range cfgCE1.k = [0, 1] from rfl]
  simp only [List.map_cons, List.map_nil, List.flatten]
  rw [cfgCE1_dist_knn 0 (by omega), cfgCE1_dist_knn 1 (by omega)]
  unfold medianR
  norm_num
  unfold sortR
  simp only [insertR]
  rw [if_pos (le_refl (Real.sqrt 2))]
  norm_num

/-- Both kernel values of the member of `cfgCE1` equal `exp (-√2)`. -/
lemma cfgCE1_kernel (j : ℕ) (hj : j < 2) :
    kernelW cfgCE1 (List.range 2) 0 j = Real.exp (-Real.sqrt 2) := by
  unfold kernelW
  rw [cfgCE1_dist_knn j hj, cfgCE1_lambdaa,
    Real.sq_sqrt (by norm_num : (0:ℝ) ≤ 2)]
  congr 1
  rw [neg_div]
  congr 1
  rw [div_eq_iff (by positivity), Real.mul_self_sqrt (by norm_num : (0:ℝ) ≤ 2)]

/-- Both normalized weights of the member of `cfgCE1` equal `1/2`. -/
lemma cfgCE1_weights (j : ℕ) (hj : j < 2) :
    baseWeights cfgCE1 (List.range 2) 0 j = 1 / 2 := by
  unfold baseWeights
  rw [if_neg (by norm_num [cfgCE1] : ¬ cfgCE1.k = 1)]
  unfold mk_stochastic
  rw [show cfgCE1.k = 2 from rfl, Finset.sum_range_succ, Finset.sum_range_one,
    cfgCE1_kernel 0 (by omega), cfgCE1_kernel 1 (by omega), cfgCE1_kernel j hj]
  rw [div_eq_iff (by positivity)]
  ring

/-- The sampling-time weights of the member of `cfgCE1` equal `1/2`. -/
lemma cfgCE1_sw (j : ℕ) (hj : j < 2) :
    samplingWeights cfgCE1 (List.range 2) 0 j = 1 / 2 := by
  unfold samplingWeights
  rw [if_neg (by decide : ¬ cfgCE1.regression = "local_linear")]
  exact cfgCE1_weights j hj

/-- The first tape draw (`u = 0`) selects neighbor 0. -/
lemma cfgCE1_draw0 :
    sampleDiscrete (samplingWeights cfgCE1 (List.range 2) 0) cfgCE1.k 0 = 0 := by
  unfold sampleDiscrete
  rw [show List.range cfgCE1.k = [0, 1] from rfl]
  rw [show ([0, 1] : List ℕ) = 0 :: [1] from rfl, List.find?_cons]
  rw [decide_eq_true (by
    unfold cumsum
    rw [Finset.sum_range_one, cfgCE1_sw 0 (by omega)]
    norm_num : (0:ℝ) < cumsum (samplingWeights cfgCE1 (List.range 2) 0) 0)]
  rfl

/-- The second tape draw (`u = 3/4`) selects neighbor 1. -/
lemma cfgCE1_draw1 :
    sampleDiscrete (samplingWeights cfgCE1 (List.range 2) 0) cfgCE1.k (3 / 4) = 1 := by
  unfold sampleDiscrete
  rw [show List.range cfgCE1.k = [0, 1] from rfl]
  rw [show ([0, 1] : List ℕ) = 0 :: [1] from rfl, List.find?_cons]
  rw [decide_eq_false (by
    unfold cumsum
    rw [Finset.sum_range_one, cfgCE1_sw 0 (by omega)]
    norm_num : ¬ ((3:ℝ) / 4 < cumsum (samplingWeights cfgCE1 (List.range 2) 0) 0))]
  rw [show ([1] : List ℕ) = 1 :: [] from rfl, List.find?_cons]
  rw [decide_eq_true (by
    unfold cumsum
    rw [Finset.sum_range_succ, Finset.sum_range_one, cfgCE1_sw 0 (by omega),
      cfgCE1_sw 1 (by omega)]
    norm_num : (3:ℝ) / 4 < cumsum (samplingWeights cfgCE1 (List.range 2) 0) 1)]
  rfl

/-- The forecast means of the member of `cfgCE1`: 20 at variable 0, 30 at
variable 1. -/
lemma cfgCE1_mean (v : ℕ) (hv : v < 2) :
    meanAt cfgCE1 (List.range 2) 0 v = if v = 0 then 20 else 30 := by
  unfold meanAt
  rw [if_neg (by decide : ¬ cfgCE1.regression = "local_linear")]
  rw [show cfgCE1.k = 2 from rfl, Finset.sum_range_succ, Finset.sum_range_one,
    cfgCE1_weights 0 (by omega), cfgCE1_weights 1 (by omega)]
  unfold fcAt
  rw [if_pos (by decide : cfgCE1.regression = "locally_constant"),
    if_pos (by decide : cfgCE1.regression = "locally_constant"),
    cfgCE1_index 0 (by omega), cfgCE1_index 1 (by omega)]
  interval_cases v <;> norm_num [cfgCE1]

/-- The sklearn validation passes for the blocks of `cfgCE1`. -/
lemma cfgCE1_check : knnCheck cfgCE1 (List.range 2) = Except.ok () := by
  unfold knnCheck
  rw [if_neg (by norm_num [cfgCE1] : ¬ cfgCE1.M = 0),
    if_neg (by decide : ¬ (List.range 2) = ([] : List ℕ)),
    if_neg (by norm_num [cfgCE1] : ¬ cfgCE1.N = 0),
    if_neg (by norm_num [cfgCE1] : ¬ cfgCE1.k < 1),
    if_neg (by norm_num [cfgCE1] : ¬ cfgCE1.M < cfgCE1.k)]

/-- Closed form of a member step of `cfgCE1` (locally-constant, multinomial). -/
lemma cfgCE1_member (tgt : List ℕ) (s : FState) :
    memberStep cfgCE1 (List.range 2) tgt 0 s = Except.ok
      ⟨writeRow s.xf 0 tgt (fun v => xfTmpAt cfgCE1 (List.range 2) tgt 0
          (sampleDiscrete (samplingWeights cfgCE1 (List.range 2) 0) cfgCE1.k
            (cfgCE1.tape s.pos)) v),
        writeRow s.xf_mean 0 tgt (meanAt cfgCE1 (List.range 2) 0),
        s.pos + 1⟩ := by
  unfold memberStep
  rw [if_pos (by decide : cfgCE1.regression = "locally_constant")]
  unfold sampleStep
  rw [if_neg (by decide : ¬ cfgCE1.sampling = "gaussian"),
    if_pos (by decide : cfgCE1.sampling = "multinomial")]


/-- The full global run of `cfgCE1`: one block, one member, one tape draw
(`u = 0`, selecting neighbor 0 for both variables). -/
lemma cfgCE1_global_run :
    ∃ pg, AnDA_analog_forecasting cfgCE1 = Except.ok pg ∧
      pg.1 0 1 = 20 ∧ pg.2 0 0 = 20 ∧ pg.2 0 1 = 30 := by
  refine ⟨(writeRow initState.xf 0 (List.range 2) (fun v => xfTmpAt cfgCE1
      (List.range 2) (List.range 2) 0 (sampleDiscrete (samplingWeights cfgCE1
        (List.range 2) 0) cfgCE1.k (cfgCE1.tape initState.pos)) v),
    writeRow initState.xf_mean 0 (List.range 2) (meanAt cfgCE1 (List.range 2) 0)),
    ?_, ?_, ?_, ?_⟩
  · unfold AnDA_analog_forecasting
    rw [cfgCE1_blocks]
    unfold runBlocks
    unfold blockRun
    rw [cfgCE1_check]
    rw [show ((List.range 2, List.range 2) : List ℕ × List ℕ).1 = List.range 2
        from rfl,
      show ((List.range 2, List.range 2) : List ℕ × List ℕ).2 = List.range 2
        from rfl,
      show List.range cfgCE1.N = [0] from rfl]
    unfold runMembers
    rw [cfgCE1_member (List.range 2) initState]
    rfl
  · dsimp only
    rw [writeRow_same _ _ _ _ 1 (by decide : (1:ℕ) ∈ List.range 2)]
    rw [show cfgCE1.tape initState.pos = 0 from rfl, cfgCE1_draw0]
    unfold xfTmpAt
    rw [if_pos (by decide : (1:ℕ) ∈ List.range 2)]
    unfold fcAt
    rw [if_pos (by decide : cfgCE1.regression = "locally_constant"),
      cfgCE1_index 0 (by omega)]
    norm_num [cfgCE1]
  · dsimp only
    rw [writeRow_same _ _ _ _ 0 (by decide : (0:ℕ) ∈ List.range 2),
      cfgCE1_mean 0 (by omega)]
    norm_num
  · dsimp only
    rw [writeRow_same _ _ _ _ 1 (by decide : (1:ℕ) ∈ List.range 2),
      cfgCE1_mean 1 (by omega)]
    norm_num

/-- The forced local block list of `cfgCE1`: two one-variable blocks, each with
the full context. -/
lemma cfgCE1_localBlocks :
    localBlocks cfgCE1 = [(List.range 2, [0]), (List.range 2, [1])] := by
  unfold localBlocks
  rw [show List.range cfgCE1.n = [0, 1] from rfl]
  simp only [List.map_cons, List.map_nil]
  rw [ctxVars_allOnes cfgCE1 cfgCE1_allOnes 0 (by norm_num [cfgCE1]),
    ctxVars_allOnes cfgCE1 cfgCE1_allOnes 1 (by norm_num [cfgCE1])]
  rfl

/-- One whole block of the forced local run of `cfgCE1`, from any state. -/
lemma cfgCE1_block (tgt : List ℕ) (s : FState) :
    blockRun cfgCE1 (List.range 2, tgt) s = Except.ok
      ⟨writeRow s.xf 0 tgt (fun v => xfTmpAt cfgCE1 (List.range 2) tgt 0
          (sampleDiscrete (samplingWeights cfgCE1 (List.range 2) 0) cfgCE1.k
            (cfgCE1.tape s.pos)) v),
        writeRow s.xf_mean 0 tgt (meanAt cfgCE1 (List.range 2) 0),
        s.pos + 1⟩ := by
  unfold blockRun
  rw [show ((List.range 2, tgt) : List ℕ × List ℕ).1 = List.range 2 from rfl,
    show ((List.range 2, tgt) : List ℕ × List ℕ).2 = tgt from rfl,
    cfgCE1_check, show List.range cfgCE1.N = [0] from rfl]
  unfold runMembers
  rw [cfgCE1_member tgt s]
  rfl

/-- The full forced local run of `cfgCE1`: two blocks, each consuming one tape
draw (`u = 0` then `u = 3/4`, selecting neighbor 0 then neighbor 1). -/
lemma cfgCE1_local_run :
    ∃ pl, forecastLocalForced cfgCE1 = Except.ok pl ∧
      pl.1 0 1 = 40 ∧ pl.2 0 0 = 20 ∧ pl.2 0 1 = 30 := by
  refine ⟨(writeRow (writeRow initState.xf 0 [0] (fun v => xfTmpAt cfgCE1
        (List.range 2) [0] 0 (sampleDiscrete (samplingWeights cfgCE1
          (List.range 2) 0) cfgCE1.k (cfgCE1.tape initState.pos)) v))
      0 [1] (fun v => xfTmpAt cfgCE1 (List.range 2) [1] 0
        (sampleDiscrete (samplingWeights cfgCE1 (List.range 2) 0) cfgCE1.k
          (cfgCE1.tape (initState.pos + 1))) v),
    writeRow (writeRow initState.xf_mean 0 [0] (meanAt cfgCE1 (List.range 2) 0))
      0 [1] (meanAt cfgCE1 (List.range 2) 0)), ?_, ?_, ?_, ?_⟩
  · unfold forecastLocalForced
    rw [cfgCE1_localBlocks]
    unfold runBlocks
    rw [cfgCE1_block [0] initState]
    dsimp only
    unfold runBlocks
    rw [cfgCE1_block [1]]
    rfl
  · dsimp only
    rw [writeRow_same _ _ _ _ 1 (by decide : (1:ℕ) ∈ [1])]
    rw [show cfgCE1.tape (initState.pos + 1) = 3 / 4 from rfl, cfgCE1_draw1]
    unfold xfTmpAt
    rw [if_pos (by decide : (1:ℕ) ∈ [1])]
    unfold fcAt
    rw [if_pos (by decide : cfgCE1.regression = "locally_constant"),
      cfgCE1_index 1 (by omega)]
    norm_num [cfgCE1]
  · dsimp only
    rw [writeRow_other _ _ _ _ 0 0 (by decide : ¬((0:ℕ) = 0 ∧ (0:ℕ) ∈ [1]))]
    rw [writeRow_same _ _ _ _ 0 (by decide : (0:ℕ) ∈ [0]),
      cfgCE1_mean 0 (by omega)]
    norm_num
  · dsimp only
    rw [writeRow_same _ _ _ _ 1 (by decide : (1:ℕ) ∈ [1]),
      cfgCE1_mean 1 (by omega)]
    norm_num

/-- Claim C5 counterexample: on `cfgCE1` (all-ones neighborhood, multinomial
sampling, two variables) the global pass and the forced local iteration consume
the identical random tape in different orders: the global pass draws once per
member and writes neighbor 0's successor `(10, 20)`, the local iteration draws
once per member per variable and writes `(10, 40)`.  The sampled outputs differ
at member 0, variable 1, refuting the claimed identity of the sampled output;
the forecast means agree. -/
theorem C5_counterexample :
    allOnes cfgCE1 ∧
    ∃ pg pl, AnDA_analog_forecasting cfgCE1 = Except.ok pg ∧
      forecastLocalForced cfgCE1 = Except.ok pl ∧
      pg.1 0 1 = 20 ∧ pl.1 0 1 = 40 ∧ pg.1 0 1 ≠ pl.1 0 1 := by
  obtain ⟨pg, hg, hg1, _, _⟩ := cfgCE1_global_run
  obtain ⟨pl, hl, hl1, _, _⟩ := cfgCE1_local_run
  refine ⟨cfgCE1_allOnes, pg, pl, hg, hl, hg1, hl1, ?_⟩
  rw [hg1, hl1]
  norm_num

/-- Witness for the amended C5 at `cfgCE1`: both runs succeed and their
forecast means agree everywhere. -/
theorem C5_amended_witness :
    allOnes cfgCE1 ∧
    ∃ pg pl, AnDA_analog_forecasting cfgCE1 = Except.ok pg ∧
      forecastLocalForced cfgCE1 = Except.ok pl ∧
      (blocksOf cfgCE1 = [(List.range cfgCE1.n, List.range cfgCE1.n)] ∧
        ∀ i < cfgCE1.N, ∀ v < cfgCE1.n, pg.2 i v = pl.2 i v) := by
  obtain ⟨pg, hg, _, _, _⟩ := cfgCE1_global_run
  obtain ⟨pl, hl, _, _, _⟩ := cfgCE1_local_run
  exact ⟨cfgCE1_allOnes, pg, pl, hg, hl,
    C5_amended_global_vs_local_mean cfgCE1 cfgCE1_allOnes pg pl hg hl⟩

/-! ## Small single-member configurations and their evaluation -/

/-- A locally-constant member step with multinomial sampling, in closed form. -/
lemma memberStep_lc_mult (c : AFConfig) (hreg : c.regression = "locally_constant")
    (hs : c.sampling = "multinomial") (ctx tgt : List ℕ) (i : ℕ) (s : FState) :
    memberStep c ctx tgt i s = Except.ok
      ⟨writeRow s.xf i tgt (fun v => xfTmpAt c ctx tgt i
          (sampleDiscrete (samplingWeights c ctx i) c.k (c.tape s.pos)) v),
        writeRow s.xf_mean i tgt (meanAt c ctx i), s.pos + 1⟩ := by
  unfold memberStep
  rw [if_pos hreg]
  unfold sampleStep
  rw [if_neg (by rw [hs]; decide), if_pos hs]

/-- An incremental member step with multinomial sampling, in closed form. -/
lemma memberStep_inc_mult (c : AFConfig) (hreg : c.regression = "increment")
    (hs : c.sampling = "multinomial") (ctx tgt : List ℕ) (i : ℕ) (s : FState) :
    memberStep c ctx tgt i s = Except.ok
      ⟨writeRow s.xf i tgt (fun v => xfTmpAt c ctx tgt i
          (sampleDiscrete (samplingWeights c ctx i) c.k (c.tape s.pos)) v),
        writeRow s.xf_mean i tgt (meanAt c ctx i), s.pos + 1⟩ := by
  unfold memberStep
  rw [if_neg (by rw [hreg]; decide), if_pos hreg]
  unfold sampleStep
  rw [if_neg (by rw [hs]; decide), if_pos hs]

/-- One member, one variable, one catalog row, `k = 1`, locally-constant,
multinomial: the C1/C4 witness input (`x = 3`, analog `5`, successor `7`). -/
noncomputable def cfgW1 : AFConfig :=
  ⟨1, 1, 1, fun _ _ => 3, fun _ _ => 5, fun _ _ => 7, fun _ _ => 1, 1,
    "locally_constant", "multinomial", fun _ => 0,
    fun _ _ _ => (fun _ => 0, fun _ _ => 0), fun _ _ _ _ => 0⟩

/-- The C2 witness input: like `cfgW1` but incremental regression and a
catalog whose successor equals its analog. -/
noncomputable def cfgW2 : AFConfig :=
  ⟨1, 1, 1, fun _ _ => 3, fun _ _ => 5, fun _ _ => 5, fun _ _ => 1, 1,
    "increment", "multinomial", fun _ => 0,
    fun _ _ _ => (fun _ => 0, fun _ _ => 0), fun _ _ _ _ => 0⟩

/-- The C9 witness input: two variables with the identity neighborhood (local
mode), one member, one catalog row, `k = 1`, locally-constant, multinomial. -/
noncomputable def cfgW3 : AFConfig :=
  ⟨1, 2, 1, fun _ _ => 3, fun _ _ => 5, fun _ _ => 7,
    fun i j => if i = j then 1 else 0, 1,
    "locally_constant", "multinomial", fun _ => 0,
    fun _ _ _ => (fun _ => 0, fun _ _ => 0), fun _ _ _ _ => 0⟩

/-- The executed block list of `cfgW1` is the single global pass. -/
lemma cfgW1_blocks : blocksOf cfgW1 = [(List.range 1, List.range 1)] := by
  unfold blocksOf
  rw [if_pos (show allOnes cfgW1 by intro i _ j _; rfl)]
  rfl

/-- The executed block list of `cfgW2` is the single global pass. -/
lemma cfgW2_blocks : blocksOf cfgW2 = [(List.range 1, List.range 1)] := by
  unfold blocksOf
  rw [if_pos (show allOnes cfgW2 by intro i _ j _; rfl)]
  rfl

/-- The sklearn validation passes on the single-variable single-row inputs. -/
lemma cfgW1_check : knnCheck cfgW1 (List.range 1) = Except.ok () := by
  unfold knnCheck
  rw [if_neg (by norm_num [cfgW1] : ¬ cfgW1.M = 0),
    if_neg (by decide : ¬ (List.range 1) = ([] : List ℕ)),
    if_neg (by norm_num [cfgW1] : ¬ cfgW1.N = 0),
    if_neg (by norm_num [cfgW1] : ¬ cfgW1.k < 1),
    if_neg (by norm_num [cfgW1] : ¬ cfgW1.M < cfgW1.k)]

/-- The sklearn validation passes on `cfgW2`. -/
lemma cfgW2_check : knnCheck cfgW2 (List.range 1) = Except.ok () := by
  unfold knnCheck
  rw [if_neg (by norm_num [cfgW2] : ¬ cfgW2.M = 0),
    if_neg (by decide : ¬ (List.range 1) = ([] : List ℕ)),
    if_neg (by norm_num [cfgW2] : ¬ cfgW2.N = 0),
    if_neg (by norm_num [cfgW2] : ¬ cfgW2.k < 1),
    if_neg (by norm_num [cfgW2] : ¬ cfgW2.M < cfgW2.k)]

/-- The single block of `cfgW1`, from any state. -/
lemma cfgW1_block (s : FState) :
    blockRun cfgW1 (List.range 1, List.range 1) s = Except.ok
      ⟨writeRow s.xf 0 (List.range 1) (fun v => xfTmpAt cfgW1 (List.range 1)
          (List.range 1) 0 (sampleDiscrete (samplingWeights cfgW1 (List.range 1) 0)
            cfgW1.k (cfgW1.tape s.pos)) v),
        writeRow s.xf_mean 0 (List.range 1) (meanAt cfgW1 (List.range 1) 0),
        s.pos + 1⟩ := by
  unfold blockRun
  rw [show ((List.range 1, List.range 1) : List ℕ × List ℕ).1 = List.range 1
      from rfl,
    show ((List.range 1, List.range 1) : List ℕ × List ℕ).2 = List.range 1
      from rfl,
    cfgW1_check, show List.range cfgW1.N = [0] from rfl]
  unfold runMembers
  rw [memberStep_lc_mult cfgW1 rfl rfl (List.range 1) (List.range 1) 0 s]
  rfl

/-- The single block of `cfgW2`, from any state. -/
lemma cfgW2_block (s : FState) :
    blockRun cfgW2 (List.range 1, List.range 1) s = Except.ok
      ⟨writeRow s.xf 0 (List.range 1) (fun v => xfTmpAt cfgW2 (List.range 1)
          (List.range 1) 0 (sampleDiscrete (samplingWeights cfgW2 (List.range 1) 0)
            cfgW2.k (cfgW2.tape s.pos)) v),
        writeRow s.xf_mean 0 (List.range 1) (meanAt cfgW2 (List.range 1) 0),
        s.pos + 1⟩ := by
  unfold blockRun
  rw [show ((List.range 1, List.range 1) : List ℕ × List ℕ).1 = List.range 1
      from rfl,
    show ((List.range 1, List.range 1) : List ℕ × List ℕ).2 = List.range 1
      from rfl,
    cfgW2_check, show List.range cfgW2.N = [0] from rfl]
  unfold runMembers
  rw [memberStep_inc_mult cfgW2 rfl rfl (List.range 1) (List.range 1) 0 s]
  rfl

/-- The run of `cfgW1` succeeds. -/
lemma cfgW1_run : ∃ p, AnDA_analog_forecasting cfgW1 = Except.ok p := by
  refine ⟨(writeRow initState.xf 0 (List.range 1) (fun v => xfTmpAt cfgW1
      (List.range 1) (List.range 1) 0 (sampleDiscrete (samplingWeights cfgW1
        (List.range 1) 0) cfgW1.k (cfgW1.tape initState.pos)) v),
    writeRow initState.xf_mean 0 (List.range 1) (meanAt cfgW1 (List.range 1) 0)),
    ?_⟩
  unfold AnDA_analog_forecasting
  rw [cfgW1_blocks]
  unfold runBlocks
  rw [cfgW1_block initState]
  rfl

/-- The run of `cfgW2` succeeds. -/
lemma cfgW2_run : ∃ p, AnDA_analog_forecasting cfgW2 = Except.ok p := by
  refine ⟨(writeRow initState.xf 0 (List.range 1) (fun v => xfTmpAt cfgW2
      (List.range 1) (List.range 1) 0 (sampleDiscrete (samplingWeights cfgW2
        (List.range 1) 0) cfgW2.k (cfgW2.tape initState.pos)) v),
    writeRow initState.xf_mean 0 (List.range 1) (meanAt cfgW2 (List.range 1) 0)),
    ?_⟩
  unfold AnDA_analog_forecasting
  rw [cfgW2_blocks]
  unfold runBlocks
  rw [cfgW2_block initState]
  rfl

/-- Witness for C1 at `cfgW1`: the returned mean is the successor of the single
nearest analog, with weight 1. -/
theorem C1_locally_constant_k1_witness :
    cfgW1.regression = "locally_constant" ∧ cfgW1.k = 1 ∧
    ∃ p, AnDA_analog_forecasting cfgW1 = Except.ok p ∧
      (p.2 0 0 = cfgW1.successors (index_knn cfgW1 (List.range 1) 0 0) 0 ∧
       samplingWeights cfgW1 (List.range 1) 0 0 = 1) := by
  obtain ⟨p, hp⟩ := cfgW1_run
  exact ⟨rfl, rfl, p, hp,
    C1_locally_constant_k1 cfgW1 p rfl rfl hp (List.range 1, List.range 1)
      (by rw [cfgW1_blocks]; exact List.mem_singleton.mpr rfl)
      0 (by norm_num [cfgW1]) 0 (by decide)⟩

/-- Witness for C2 at `cfgW2`: with successors equal to analogs, the returned
mean is the member's current value. -/
theorem C2_increment_identity_witness :
    cfgW2.regression = "increment" ∧
    (∀ m < cfgW2.M, ∀ v < cfgW2.n, cfgW2.successors m v = cfgW2.analogs m v) ∧
    ∃ p, AnDA_analog_forecasting cfgW2 = Except.ok p ∧ p.2 0 0 = cfgW2.x 0 0 := by
  obtain ⟨p, hp⟩ := cfgW2_run
  exact ⟨rfl, fun m _ v _ => rfl, p, hp,
    C2_increment_identity cfgW2 p rfl (fun m _ v _ => rfl) hp
      (List.range 1, List.range 1)
      (by rw [cfgW2_blocks]; exact List.mem_singleton.mpr rfl)
      0 (by norm_num [cfgW2]) 0 (by decide)⟩

/-- Witness for C4 at `cfgW1`: the sampled row equals a candidate row of
`xf_tmp`. -/
theorem C4_multinomial_candidate_witness :
    cfgW1.sampling = "multinomial" ∧
    ∃ s2, blockRun cfgW1 (List.range 1, List.range 1) initState = Except.ok s2 ∧
      ∃ j < cfgW1.k, ∀ v ∈ List.range 1,
        s2.xf 0 v = xfTmpAt cfgW1 (List.range 1) (List.range 1) 0 j v := by
  have hb := cfgW1_block initState
  exact ⟨rfl, _, hb,
    C4_multinomial_candidate cfgW1 (List.range 1) (List.range 1) rfl initState _ hb
      0 (by norm_num [cfgW1])⟩

/-- The context of variable 0 in the identity-neighborhood input `cfgW3`. -/
lemma cfgW3_ctx0 : ctxVars cfgW3 0 = [0] := by
  unfold ctxVars
  rw [show List.range cfgW3.n = [0, 1] from rfl]
  simp only [List.filter_cons, List.filter_nil,
    decide_eq_true (show cfgW3.neighborhood 0 0 = 1 from rfl),
    decide_eq_false (show ¬ cfgW3.neighborhood 0 1 = 1 by norm_num [cfgW3])]
  simp

/-- The sklearn validation passes on the first block of `cfgW3`. -/
lemma cfgW3_check : knnCheck cfgW3 [0] = Except.ok () := by
  unfold knnCheck
  rw [if_neg (by norm_num [cfgW3] : ¬ cfgW3.M = 0),
    if_neg (by decide : ¬ ([0] : List ℕ) = ([] : List ℕ)),
    if_neg (by norm_num [cfgW3] : ¬ cfgW3.N = 0),
    if_neg (by norm_num [cfgW3] : ¬ cfgW3.k < 1),
    if_neg (by norm_num [cfgW3] : ¬ cfgW3.M < cfgW3.k)]

/-- The first local block of `cfgW3`, from any state. -/
lemma cfgW3_block (s : FState) :
    blockRun cfgW3 (ctxVars cfgW3 0, [0]) s = Except.ok
      ⟨writeRow s.xf 0 [0] (fun v => xfTmpAt cfgW3 [0] [0] 0
          (sampleDiscrete (samplingWeights cfgW3 [0] 0) cfgW3.k
            (cfgW3.tape s.pos)) v),
        writeRow s.xf_mean 0 [0] (meanAt cfgW3 [0] 0),
        s.pos + 1⟩ := by
  rw [cfgW3_ctx0]
  unfold blockRun
  rw [show (([0], [0]) : List ℕ × List ℕ).1 = [0] from rfl,
    show (([0], [0]) : List ℕ × List ℕ).2 = [0] from rfl,
    cfgW3_check, show List.range cfgW3.N = [0] from rfl]
  unfold runMembers
  rw [memberStep_lc_mult cfgW3 rfl rfl [0] [0] 0 s]
  rfl

/-- Witness for C9 at `cfgW3`: the iteration of block 0 leaves column 1 of both
output arrays untouched. -/
theorem C9_local_frame_witness :
    (ctxVars cfgW3 0, [0]) ∈ localBlocks cfgW3 ∧ (1:ℕ) ∉ [(0:ℕ)] ∧
    ∃ s2, blockRun cfgW3 (ctxVars cfgW3 0, [0]) initState = Except.ok s2 ∧
      (s2.xf 0 1 = initState.xf 0 1 ∧ s2.xf_mean 0 1 = initState.xf_mean 0 1) := by
  have hmem : (ctxVars cfgW3 0, [0]) ∈ localBlocks cfgW3 := by
    unfold localBlocks
    rw [show List.range cfgW3.n = [0, 1] from rfl]
    simp only [List.map_cons, List.map_nil]
    exact List.mem_cons_self _ _
  have hb := cfgW3_block initState
  exact ⟨hmem, by decide, _, hb,
    C9_local_frame cfgW3 _ hmem initState _ hb 0 1 (by decide)⟩

/-! ## The local-linear branch on a concrete two-neighbor input -/

/-- Determinant of `Cxx` in closed form when the regression keeps exactly one
principal component (`p = 2`). -/
lemma detCxx_two (c : AFConfig) (ctx : List ℕ) (i : ℕ) (h : pLL c ctx i = 2) :
    detCxx c ctx i = CxxLL c ctx i 0 0 * CxxLL c ctx i 1 1 -
      CxxLL c ctx i 0 1 * CxxLL c ctx i 1 0 := by
  unfold detCxx CxxMat
  rw [h, Matrix.det_fin_two]
  simp only [Matrix.of_apply]
  norm_num

/-- A local-linear member step with multinomial sampling and invertible `Cxx`,
in closed form. -/
lemma memberStep_ll_mult (c : AFConfig) (ctx tgt : List ℕ) (i : ℕ)
    (hreg : c.regression = "local_linear") (hs : c.sampling = "multinomial")
    (hdet : ¬ detCxx c ctx i = 0) (s : FState) :
    memberStep c ctx tgt i s = Except.ok
      ⟨writeRow s.xf i tgt (fun v => xfTmpAt c ctx tgt i
          (sampleDiscrete (samplingWeights c ctx i) c.k (c.tape s.pos)) v),
        writeRow s.xf_mean i tgt (meanAt c ctx i), s.pos + 1⟩ := by
  unfold memberStep
  rw [if_neg (by rw [hreg]; decide), if_neg (by rw [hreg]; decide), if_pos hreg,
    if_neg hdet]
  unfold sampleStep
  rw [if_neg (by rw [hs]; decide), if_pos hs]


/-- A recognized sampling configuration never makes the sampling step fail. -/
lemma sampleStep_valid_ok (c : AFConfig) (ctx tgt : List ℕ) (i : ℕ)
    (hsamp : c.sampling = "gaussian" ∨ c.sampling = "multinomial") (s : FState) :
    ∃ s2, sampleStep c ctx tgt i s = Except.ok s2 := by
  rcases hsamp with hg | hm
  · exact sampleStep_gaussian_ok c ctx tgt i hg s
  · unfold sampleStep
    rw [if_neg (by rw [hm]; decide), if_pos hm]
    exact ⟨_, rfl⟩

/-- A local-linear member step with invertible `Cxx` and a recognized sampling
configuration never fails. -/
lemma memberStep_ll_ok (c : AFConfig) (ctx tgt : List ℕ) (i : ℕ)
    (hreg : c.regression = "local_linear") (hdet : detCxx c ctx i ≠ 0)
    (hsamp : c.sampling = "gaussian" ∨ c.sampling = "multinomial") (s : FState) :
    ∃ s2, memberStep c ctx tgt i s = Except.ok s2 := by
  unfold memberStep
  rw [if_neg (by rw [hreg]; decide), if_neg (by rw [hreg]; decide), if_pos hreg,
    if_neg hdet]
  exact sampleStep_valid_ok c ctx tgt i hsamp s

/-- Claim C8 (amended): the local-linear branch guards its inversion only
against an exactly singular `Cxx` (`scipy.linalg.inv` raises its generic
singular-matrix error; the recommendation to increase `k` exists only as a
source comment at the `inv` call site, not in any error).  A near-singular but
invertible `Cxx` is never rejected: whenever every executed member's `Cxx` has
nonzero determinant and the configuration is otherwise valid, the call
completes and produces output.  The second conjunct records why an exactly
singular `Cxx` cannot arise from a real run in exact arithmetic: the weights
sum to 1 and `w`-center the analog context rows (`Σ_j w_j · Xc[j,p] = 0`), so
the intercept column of `Xr` is `w`-orthogonal to the kept-component columns
and `Cxx` is positive definite; the failure path is reachable only through
floating-point degeneracy. -/
theorem C8_amended_invertible_continues (c : AFConfig)
    (hreg : c.regression = "local_linear")
    (hsamp : c.sampling = "gaussian" ∨ c.sampling = "multinomial")
    (hcheck : ∀ b ∈ blocksOf c, knnCheck c b.1 = Except.ok ())
    (hdet : ∀ b ∈ blocksOf c, ∀ i < c.N, detCxx c b.1 i ≠ 0) :
    (∃ p, AnDA_analog_forecasting c = Except.ok p) ∧
    (∀ (ctx : List ℕ) (i p2 : ℕ), 1 ≤ c.k →
      ∑ j ∈ Finset.range c.k, baseWeights c ctx i j * XcLL c ctx i j p2 = 0) := by
  constructor
  · have hall : ∀ b ∈ blocksOf c, ∀ s3 : FState,
        ∃ s4, blockRun c b s3 = Except.ok s4 := by
      intro b hb s3
      unfold blockRun
      rw [hcheck b hb]
      exact runMembers_ok c b.1 b.2 (List.range c.N)
        (fun i hi s5 => memberStep_ll_ok c b.1 b.2 i hreg
          (hdet b hb i (List.mem_range.mp hi)) hsamp s5) s3
    rcases runBlocks_ok c (blocksOf c) hall initState with ⟨s2, hs2⟩
    refine ⟨(s2.xf, s2.xf_mean), ?_⟩
    unfold AnDA_analog_forecasting
    rw [hs2]
    rfl
  · intro ctx i p2 hk
    unfold XcLL
    simp only [mul_sub]
    rw [Finset.sum_sub_distrib, ← Finset.sum_mul, sum_baseWeights c ctx i hk,
      one_mul]
    unfold XmLL
    exact sub_self _

/-- One member, one variable, two catalog rows at `±1/40000` (equidistant from
the member at `0`), `k = 2`, local-linear regression, multinomial sampling.
The svd oracle returns exactly what `numpy.linalg.svd(Xc, full_matrices=False)`
returns for the centered matrix `Xc = [[1/40000], [-1/40000]]` that the branch
hands it: the single singular value `√2/40000` (the oracle's `S` is read only
at index 0, the length of numpy's `S` being `min(k, d) = 1`) and `Vh = [[1]]`
(for a 2×1 matrix the right factor is `[[1]]` or `[[-1]]`; the sign choice
cancels in `Cxx`).  The kept-component design matrix is then
`Xr = [[1, 1/40000], [1, -1/40000]]` and `Cxx = [[1, 0], [0, 1/1600000000]]`:
invertible but with condition number `1.6·10⁹`. -/
noncomputable def cfgC8near : AFConfig :=
  ⟨1, 1, 2, fun _ _ => 0,
    fun m _ => if m = 0 then 1 / 40000 else -(1 / 40000),
    fun _ _ => 5, fun _ _ => 1, 2, "local_linear", "multinomial", fun _ => 0,
    fun _ _ _ => (fun _ => (1 / 40000) * Real.sqrt 2, fun _ _ => 1),
    fun _ _ _ _ => 0⟩

/-- Both catalog rows of `cfgC8near` are at distance `1/40000` from the
member. -/
lemma c8n_dist (m : ℕ) (hm : m < 2) :
    distTo cfgC8near (List.range 1) 0 m = 1 / 40000 := by
  interval_cases m
  · unfold distTo
    rw [show List.range 1 = [0] from rfl]
    simp only [List.map_cons, List.map_nil, List.sum_cons, List.sum_nil]
    rw [show ((cfgC8near.analogs 0 0 - cfgC8near.x 0 0) ^ 2 + 0 : ℝ) =
        (1 / 40000) ^ 2 by norm_num [cfgC8near]]
    exact Real.sqrt_sq (by norm_num)
  · unfold distTo
    rw [show List.range 1 = [0] from rfl]
    simp only [List.map_cons, List.map_nil, List.sum_cons, List.sum_nil]
    rw [show ((cfgC8near.analogs 1 0 - cfgC8near.x 0 0) ^ 2 + 0 : ℝ) =
        (1 / 40000) ^ 2 by norm_num [cfgC8near]]
    exact Real.sqrt_sq (by norm_num)

/-- The modelled KDTree query of `cfgC8near` returns the rows in index order
(a tie at distance `1/40000`). -/
lemma c8n_knn : knnIdx cfgC8near (List.range 1) 0 = [0, 1] := by
  have hn : nearer cfgC8near (List.range 1) 0 0 1 :=
    Or.inr ⟨by rw [c8n_dist 0 (by omega), c8n_dist 1 (by omega)], by omega⟩
  unfold knnIdx
  rw [show List.range cfgC8near.M = [0, 1] from rfl]
  simp only [sortNear, insertNear]
  rw [if_pos hn]
  rfl

/-- The neighbor indices of the member of `cfgC8near`. -/
lemma c8n_index (j : ℕ) (hj : j < 2) :
    index_knn cfgC8near (List.range 1) 0 j = j := by
  unfold index_knn
  rw [c8n_knn]
  interval_cases j <;> rfl

/-- Both neighbor distances of `cfgC8near` equal `1/40000`. -/
lemma c8n_dist_knn (j : ℕ) (hj : j < 2) :
    dist_knn cfgC8near (List.range 1) 0 j = 1 / 40000 := by
  unfold dist_knn
  rw [c8n_index j hj]
  exact c8n_dist j hj

/-- Both normalized weights of the member of `cfgC8near` equal `1/2` (the two
kernel values are equal because the two distances are). -/
lemma c8n_weights (j : ℕ) (hj : j < 2) :
    baseWeights cfgC8near (List.range 1) 0 j = 1 / 2 := by
  have hker : ∀ j2, j2 < 2 → kernelW cfgC8near (List.range 1) 0 j2 =
      kernelW cfgC8near (List.range 1) 0 0 := by
    intro j2 hj2
    unfold kernelW
    rw [c8n_dist_knn j2 hj2, c8n_dist_knn 0 (by omega)]
  unfold baseWeights
  rw [if_neg (by norm_num [cfgC8near] : ¬ cfgC8near.k = 1)]
  unfold mk_stochastic
  rw [show cfgC8near.k = 2 from rfl, Finset.sum_range_succ, Finset.sum_range_one,
    hker 1 (by omega), hker j hj]
  rw [div_eq_iff (ne_of_gt (by
    have hp := kernelW_pos cfgC8near (List.range 1) 0 0
    linarith))]
  ring

/-- The analog context values of the two neighbors of `cfgC8near`. -/
lemma c8n_X (j : ℕ) (hj : j < 2) :
    XLL cfgC8near (List.range 1) 0 j 0 =
      if j = 0 then 1 / 40000 else -(1 / 40000) := by
  unfold XLL
  rw [c8n_index j hj]
  interval_cases j <;> norm_num [cfgC8near]

/-- The weighted context mean of `cfgC8near` is 0. -/
lemma c8n_Xm : XmLL cfgC8near (List.range 1) 0 0 = 0 := by
  unfold XmLL
  rw [show cfgC8near.k = 2 from rfl, Finset.sum_range_succ, Finset.sum_range_one,
    c8n_weights 0 (by omega), c8n_weights 1 (by omega),
    c8n_X 0 (by omega), c8n_X 1 (by omega)]
  norm_num

/-- The centered context values handed to the svd: `±1/40000`. -/
lemma c8n_Xc (j : ℕ) (hj : j < 2) :
    XcLL cfgC8near (List.range 1) 0 j 0 =
      if j = 0 then 1 / 40000 else -(1 / 40000) := by
  unfold XcLL
  rw [c8n_Xm, c8n_X j hj]
  ring

/-- The kept principal components of `cfgC8near`: exactly component 0 (its
singular-value share is 1 > 1%). -/
lemma c8n_ind : indLL cfgC8near (List.range 1) 0 = [0] := by
  unfold indLL
  rw [show min cfgC8near.k (List.range 1).length = 1 from rfl]
  rw [show List.range 1 = [0] from rfl]
  simp only [List.filter_cons, List.filter_nil]
  rw [decide_eq_true (by
    rw [show svdS cfgC8near [0] 0 = fun _ => (1 / 40000) * Real.sqrt 2 from rfl]
    simp only [Finset.sum_range_one]
    rw [div_self (by positivity)]
    norm_num :
    svdS cfgC8near [0] 0 0 /
      (∑ l2 ∈ Finset.range 1, svdS cfgC8near [0] 0 l2) > 0.01)]
  simp

/-- The regression keeps the intercept plus one component: `p = 2`. -/
lemma c8n_p : pLL cfgC8near (List.range 1) 0 = 2 := by
  unfold pLL
  rw [c8n_ind]
  rfl

/-- The design matrix `Xr` of `cfgC8near`:
`[[1, 1/40000], [1, -1/40000]]`. -/
lemma c8n_Xr (j : ℕ) (hj : j < 2) :
    XrLL cfgC8near (List.range 1) 0 j 0 = 1 ∧
    XrLL cfgC8near (List.range 1) 0 j 1 =
      if j = 0 then 1 / 40000 else -(1 / 40000) := by
  constructor
  · unfold XrLL
    rw [if_pos rfl]
  · unfold XrLL
    rw [if_neg (by omega : ¬ (1:ℕ) = 0)]
    rw [show (List.range 1).length = 1 from rfl, Finset.sum_range_one,
      c8n_ind, c8n_Xc j hj]
    rw [show svdV cfgC8near (List.range 1) 0 (([0] : List ℕ).getD 0 0) 0 = 1
      from rfl]
    interval_cases j <;> norm_num

/-- The weighted Gram matrix of `cfgC8near`:
`[[1, 0], [0, 1/1600000000]]`. -/
lemma c8n_Cxx :
    CxxLL cfgC8near (List.range 1) 0 0 0 = 1 ∧
    CxxLL cfgC8near (List.range 1) 0 0 1 = 0 ∧
    CxxLL cfgC8near (List.range 1) 0 1 0 = 0 ∧
    CxxLL cfgC8near (List.range 1) 0 1 1 = 1 / 1600000000 := by
  have h0 := c8n_Xr 0 (by omega)
  have h1 := c8n_Xr 1 (by omega)
  refine ⟨?_, ?_, ?_, ?_⟩ <;>
    (unfold CxxLL
     rw [show cfgC8near.k = 2 from rfl, Finset.sum_range_succ,
       Finset.sum_range_one, c8n_weights 0 (by omega), c8n_weights 1 (by omega)])
  · rw [h0.1, h1.1]
    norm_num
  · rw [h0.1, h1.1, h0.2, h1.2]
    norm_num
  · rw [h0.1, h1.1, h0.2, h1.2]
    norm_num
  · rw [h0.2, h1.2]
    norm_num

/-- Determinant of the Gram matrix of `cfgC8near`: `1/1600000000` — tiny but
nonzero. -/
lemma c8n_det : detCxx cfgC8near (List.range 1) 0 = 1 / 1600000000 := by
  obtain ⟨h00, h01, h10, h11⟩ := c8n_Cxx
  rw [detCxx_two cfgC8near (List.range 1) 0 c8n_p, h00, h01, h10, h11]
  ring

/-- The executed block list of `cfgC8near` is the single global pass. -/
lemma c8n_blocks : blocksOf cfgC8near = [(List.range 1, List.range 1)] := by
  unfold blocksOf
  rw [if_pos (show allOnes cfgC8near by intro i _ j _; rfl)]
  rfl

/-- The sklearn validation passes on `cfgC8near`. -/
lemma c8n_check : knnCheck cfgC8near (List.range 1) = Except.ok () := by
  unfold knnCheck
  rw [if_neg (by norm_num [cfgC8near] : ¬ cfgC8near.M = 0),
    if_neg (by decide : ¬ (List.range 1) = ([] : List ℕ)),
    if_neg (by norm_num [cfgC8near] : ¬ cfgC8near.N = 0),
    if_neg (by norm_num [cfgC8near] : ¬ cfgC8near.k < 1),
    if_neg (by norm_num [cfgC8near] : ¬ cfgC8near.M < cfgC8near.k)]

/-- The full local-linear run of `cfgC8near` succeeds. -/
lemma c8n_run : ∃ p, AnDA_analog_forecasting cfgC8near = Except.ok p := by
  have hdet : ¬ detCxx cfgC8near (List.range 1) 0 = 0 := by
    rw [c8n_det]
    norm_num
  refine ⟨(writeRow initState.xf 0 (List.range 1) (fun v => xfTmpAt cfgC8near
      (List.range 1) (List.range 1) 0 (sampleDiscrete (samplingWeights cfgC8near
        (List.range 1) 0) cfgC8near.k (cfgC8near.tape initState.pos)) v),
    writeRow initState.xf_mean 0 (List.range 1)
      (meanAt cfgC8near (List.range 1) 0)), ?_⟩
  unfold AnDA_analog_forecasting
  rw [c8n_blocks]
  unfold runBlocks
  unfold blockRun
  rw [show ((List.range 1, List.range 1) : List ℕ × List ℕ).1 = List.range 1
      from rfl,
    show ((List.range 1, List.range 1) : List ℕ × List ℕ).2 = List.range 1
      from rfl,
    c8n_check, show List.range cfgC8near.N = [0] from rfl]
  unfold runMembers
  rw [memberStep_ll_mult cfgC8near (List.range 1) (List.range 1) 0 rfl rfl hdet
    initState]
  rfl

/-- Claim C8 counterexample: on `cfgC8near` — whose svd oracle returns exactly
numpy's decomposition of the actual centered matrix `[[1/40000], [-1/40000]]` —
the local-linear Gram matrix is `Cxx = [[1, 0], [0, 1/1600000000]]`:
near-singular (condition number `1.6·10⁹`) yet invertible, and the call does
**not** fail: it completes and returns output.  This refutes "singular **or
near-singular** … the call fails … with an error that advises the caller to
increase k, rather than continuing or producing output". -/
theorem C8_counterexample :
    cfgC8near.regression = "local_linear" ∧
    CxxLL cfgC8near (List.range 1) 0 0 0 = 1 ∧
    CxxLL cfgC8near (List.range 1) 0 0 1 = 0 ∧
    CxxLL cfgC8near (List.range 1) 0 1 0 = 0 ∧
    CxxLL cfgC8near (List.range 1) 0 1 1 = 1 / 1600000000 ∧
    detCxx cfgC8near (List.range 1) 0 ≠ 0 ∧
    ∃ p, AnDA_analog_forecasting cfgC8near = Except.ok p := by
  obtain ⟨h00, h01, h10, h11⟩ := c8n_Cxx
  refine ⟨rfl, h00, h01, h10, h11, ?_, c8n_run⟩
  rw [c8n_det]
  norm_num

/-- Witness for the amended C8 at `cfgC8near`: the hypotheses (valid
configuration, every executed `Cxx` invertible) hold concretely and the call
completes; the centering identity holds as well. -/
theorem C8_amended_invertible_continues_witness :
    cfgC8near.regression = "local_linear" ∧
    (cfgC8near.sampling = "gaussian" ∨ cfgC8near.sampling = "multinomial") ∧
    (∀ b ∈ blocksOf cfgC8near, knnCheck cfgC8near b.1 = Except.ok ()) ∧
    (∀ b ∈ blocksOf cfgC8near, ∀ i < cfgC8near.N, detCxx cfgC8near b.1 i ≠ 0) ∧
    ((∃ p, AnDA_analog_forecasting cfgC8near = Except.ok p) ∧
     (∀ (ctx : List ℕ) (i p2 : ℕ), 1 ≤ cfgC8near.k →
       ∑ j ∈ Finset.range cfgC8near.k,
         baseWeights cfgC8near ctx i j * XcLL cfgC8near ctx i j p2 = 0)) := by
  have hcheck : ∀ b ∈ blocksOf cfgC8near,
      knnCheck cfgC8near b.1 = Except.ok () := by
    intro b hb
    rw [c8n_blocks] at hb
    rw [List.mem_singleton.mp hb]
    exact c8n_check
  have hdet : ∀ b ∈ blocksOf cfgC8near, ∀ i < cfgC8near.N,
      detCxx cfgC8near b.1 i ≠ 0 := by
    intro b hb i hi
    rw [c8n_blocks] at hb
    have hi1 : i < 1 := hi
    have hi0 : i = 0 := by omega
    subst hi0
    rw [List.mem_singleton.mp hb]
    rw [show ((List.range 1, List.range 1) : List ℕ × List ℕ).1 = List.range 1
        from rfl, c8n_det]
    norm_num
  exact ⟨rfl, Or.inr rfl, hcheck, hdet,
    C8_amended_invertible_continues cfgC8near rfl (Or.inr rfl) hcheck hdet⟩
